import Mathlib

/-
Verification of the colormap-synthesis engine (colormap.cpp) against its
natural-language specification.

The C++ source computes in single-precision floating point; the shallow
embedding below models every float value as a real number and every libm
function by its exact mathematical counterpart (std::sin/cos/atan2/sqrt by
Real.sin/cos/arctan-based atan2/Real.sqrt, std::pow and std::cbrt on the
nonnegative arguments they receive here by Real.rpow, std::fmod and the
float-to-integer casts by explicit floor/ceil constructions that truncate
toward zero exactly as C does).  Definition names follow the source.
-/

namespace ColorMap

noncomputable section

open Real

/- Generic helpers (colormap.cpp lines 46-52). -/

def twopi : ℝ := 2 * π

def clamp (x lo hi : ℝ) : ℝ := min (max x lo) hi

/-- C `std::cbrt`; every call site in this file passes a positive argument,
where the real cube root agrees with `rpow` of `1/3`. -/
def cbrt (x : ℝ) : ℝ := x ^ ((1 : ℝ) / 3)

/-- Truncation toward zero, the semantics of C float-to-int conversion and
the building block of `fmod`. -/
def ctrunc (x : ℝ) : ℝ := if 0 ≤ x then (⌊x⌋ : ℝ) else (⌈x⌉ : ℝ)

/-- C `std::fmod`: remainder with the sign of the dividend,
`fmod a m = a - m * trunc (a / m)`. -/
def fmod (a m : ℝ) : ℝ := a - m * ctrunc (a / m)

/- XYZ and related color spaces helper functions and values (lines 54-70). -/

def u_prime (x y z : ℝ) : ℝ := 4 * x / (x + 15 * y + 3 * z)

def v_prime (x y z : ℝ) : ℝ := 9 * y / (x + 15 * y + 3 * z)

def d65_x : ℝ := 95.047
def d65_y : ℝ := 100.000
def d65_z : ℝ := 108.883

def d65_u_prime : ℝ := u_prime d65_x d65_y d65_z
def d65_v_prime : ℝ := v_prime d65_x d65_y d65_z

/-- `u_prime` with IEEE division modeled faithfully at a zero denominator:
the source divides `4*x` by `x + 15*y + 3*z` with no guard, and at
`(0,0,0)` that is `0/0`, which produces NaN (no real value), modeled as
`none`. -/
def u_prime_checked (x y z : ℝ) : Option ℝ :=
  if x + 15 * y + 3 * z = 0 then none else some (4 * x / (x + 15 * y + 3 * z))

/-- `v_prime` with IEEE division modeled faithfully at a zero denominator;
see `u_prime_checked`. -/
def v_prime_checked (x y z : ℝ) : Option ℝ :=
  if x + 15 * y + 3 * z = 0 then none else some (9 * y / (x + 15 * y + 3 * z))

/- Color space conversion: LCH <-> LUV (lines 72-101). -/

def lch_saturation (l c : ℝ) : ℝ := c / max l 1e-8

def lch_chroma (l s : ℝ) : ℝ := s * l

def lch_to_luv_u (c h : ℝ) : ℝ := c * Real.cos h

def lch_to_luv_v (c h : ℝ) : ℝ := c * Real.sin h

/-- C `std::atan2` (with both arguments finite and not both used at `(0,0)`
in this program except through total definitions): the usual four-quadrant
arc tangent with range `(-π, π]`. -/
def atan2 (y x : ℝ) : ℝ :=
  if 0 < x then arctan (y / x)
  else if x < 0 then (if 0 ≤ y then arctan (y / x) + π else arctan (y / x) - π)
  else if 0 < y then π / 2
  else if y < 0 then -(π / 2)
  else 0

def luv_to_lch_c (u v : ℝ) : ℝ := Real.sqrt (u ^ 2 + v ^ 2)

def luv_to_lch_h (u v : ℝ) : ℝ :=
  let h := atan2 v u
  if h < 0 then h + twopi else h

def luv_saturation (l u v : ℝ) : ℝ := lch_saturation l (Real.sqrt (u ^ 2 + v ^ 2))

/- Helpers for LUV colors (lines 173-191). -/

@[ext]
structure LUVColor where
  l : ℝ
  u : ℝ
  v : ℝ

def luvAdd (a b : LUVColor) : LUVColor := ⟨a.l + b.l, a.u + b.u, a.v + b.v⟩

def luvSmul (a : ℝ) (b : LUVColor) : LUVColor := ⟨a * b.l, a * b.u, a * b.v⟩

/- Color space conversion: LUV <-> XYZ (lines 103-129). -/

def luv_to_xyz (l u v : ℝ) : ℝ × ℝ × ℝ :=
  let up := u / (13 * l) + d65_u_prime
  let vp := v / (13 * l) + d65_v_prime
  let y : ℝ :=
    if l ≤ 8 then d65_y * l * (3 * 3 * 3 / (29 * 29 * 29))
    else d65_y * ((l + 16) / 116) * ((l + 16) / 116) * ((l + 16) / 116)
  (y * (9 * up) / (4 * vp), y, y * (12 - 3 * up - 20 * vp) / (4 * vp))

/-- The lightness computed by `xyz_to_luv` depends only on `y`; factored out
so lemmas can speak about it directly. -/
def luv_l_of_y (y : ℝ) : ℝ :=
  let y_ratio := y / d65_y
  if y_ratio ≤ 6 * 6 * 6 / (29 * 29 * 29) then 29 * 29 * 29 / (3 * 3 * 3) * y_ratio
  else 116 * cbrt y_ratio - 16

def xyz_to_luv (x y z : ℝ) : LUVColor :=
  let l := luv_l_of_y y
  ⟨l, 13 * l * (u_prime x y z - d65_u_prime), 13 * l * (v_prime x y z - d65_v_prime)⟩

/- Color space conversion: RGB <-> XYZ (lines 131-145). -/

def rgb_to_xyz (r g b : ℝ) : ℝ × ℝ × ℝ :=
  ((0.4124 * r + 0.3576 * g + 0.1805 * b) * 100,
   (0.2126 * r + 0.7152 * g + 0.0722 * b) * 100,
   (0.0193 * r + 0.1192 * g + 0.9505 * b) * 100)

def xyz_to_rgb (x y z : ℝ) : ℝ × ℝ × ℝ :=
  (clamp ((3.2406255 * x - 1.5372080 * y - 0.4986286 * z) / 100) 0 1,
   clamp ((-0.9689307 * x + 1.8757561 * y + 0.0415175 * z) / 100) 0 1,
   clamp ((0.0557101 * x - 0.2040211 * y + 1.0569959 * z) / 100) 0 1)

/- Color space conversion: RGB <-> sRGB (lines 147-171). -/

def rgb_to_srgb_helper (x : ℝ) : ℝ :=
  if x ≤ 0.0031308 then x * 12.92 else 1.055 * x ^ ((1 : ℝ) / 2.4) - 0.055

def srgb_to_rgb_helper (x : ℝ) : ℝ :=
  if x ≤ 0.04045 then x / 12.92 else ((x + 0.055) / 1.055) ^ (2.4 : ℝ)

/-- sRGB triple straight to LUV (the composition used by
`srgb_to_lch_hue` and at the end of `most_saturated_in_srgb`). -/
def srgb_to_luv (sr sg sb : ℝ) : LUVColor :=
  let r := srgb_to_rgb_helper sr
  let g := srgb_to_rgb_helper sg
  let b := srgb_to_rgb_helper sb
  let xyz := rgb_to_xyz r g b
  xyz_to_luv xyz.1 xyz.2.1 xyz.2.2

def srgb_to_lch_hue (sr sg sb : ℝ) : ℝ :=
  let c := srgb_to_luv sr sg sb
  luv_to_lch_h c.u c.v

/- The gamut boundary solver `most_saturated_in_srgb` (lines 206-278). -/

def hueRed : ℝ := srgb_to_lch_hue 1 0 0
def hueYellow : ℝ := srgb_to_lch_hue 1 1 0
def hueGreen : ℝ := srgb_to_lch_hue 0 1 0
def hueCyan : ℝ := srgb_to_lch_hue 0 1 1
def hueBlue : ℝ := srgb_to_lch_hue 0 0 1
def hueMagenta : ℝ := srgb_to_lch_hue 1 0 1

/-- The linear solve for the one free sRGB channel in a gamut sector.
`Xi Yi Zi` is the matrix column of the channel being solved for (index `i`
in the source), `Xk Yk Zk` the column of the channel fixed to one
(index `k`); the channel at index `j` is fixed to zero. -/
def sector_solve (hue Xi Yi Zi Xk Yk Zk : ℝ) : ℝ :=
  let alpha := -Real.sin hue
  let beta := Real.cos hue
  let T := alpha * d65_u_prime + beta * d65_v_prime
  let q0 := T * (Xk + 15 * Yk + 3 * Zk) - (4 * alpha * Xk + 9 * beta * Yk)
  let q1 := T * (Xi + 15 * Yi + 3 * Zi) - (4 * alpha * Xi + 9 * beta * Yi)
  rgb_to_srgb_helper (clamp (-q0 / q1) 0 1)

/-- Matrix columns: red `(0.4124, 0.2126, 0.0193)`, green
`(0.3576, 0.7152, 0.1192)`, blue `(0.1805, 0.0722, 0.9505)`.
Each branch fixes `srgb[j] = 0`, `srgb[k] = 1` and solves channel `i`,
with `(i,j,k)` exactly as assigned in the source's sector dispatch. -/
def most_saturated_srgb_triple (hue : ℝ) : ℝ × ℝ × ℝ :=
  if hue < hueRed then
    (1, 0, sector_solve hue 0.1805 0.0722 0.9505 0.4124 0.2126 0.0193)
  else if hue < hueYellow then
    (1, sector_solve hue 0.3576 0.7152 0.1192 0.4124 0.2126 0.0193, 0)
  else if hue < hueGreen then
    (sector_solve hue 0.4124 0.2126 0.0193 0.3576 0.7152 0.1192, 1, 0)
  else if hue < hueCyan then
    (0, 1, sector_solve hue 0.1805 0.0722 0.9505 0.3576 0.7152 0.1192)
  else if hue < hueBlue then
    (0, sector_solve hue 0.3576 0.7152 0.1192 0.1805 0.0722 0.9505, 1)
  else if hue < hueMagenta then
    (sector_solve hue 0.4124 0.2126 0.0193 0.1805 0.0722 0.9505, 0, 1)
  else
    (1, 0, sector_solve hue 0.1805 0.0722 0.9505 0.4124 0.2126 0.0193)

def most_saturated_in_srgb (hue : ℝ) : LUVColor :=
  let t := most_saturated_srgb_triple hue
  srgb_to_luv t.1 t.2.1 t.2.2

/- `Smax` and the bright point (lines 280-305). -/

def Smax (l h : ℝ) : ℝ :=
  let pmid := most_saturated_in_srgb h
  let pendl : ℝ := if pmid.l < l then 100 else 0
  let alpha := (pendl - l) / (pendl - pmid.l)
  let pmids := luv_saturation pmid.l pmid.u pmid.v
  let pends := luv_saturation pendl 0 0
  alpha * (pmids - pends) + pends

/-- `get_bright_point`: the LUV coordinates of linear-RGB yellow `(1,1,0)`
(the lazy-initialization pattern of the source memoizes exactly this value). -/
def bright_point : LUVColor :=
  let xyz := rgb_to_xyz 1 1 0
  xyz_to_luv xyz.1 xyz.2.1 xyz.2.2

/- Bezier profile machinery (lines 307-354). -/

def mix_hue (alpha h0 h1 : ℝ) : ℝ :=
  fmod (h0 + alpha * (fmod (π + h1 - h0) twopi - π)) twopi

structure ColorPoints where
  p0 : LUVColor
  p1 : LUVColor
  p2 : LUVColor
  q0 : LUVColor
  q1 : LUVColor
  q2 : LUVColor

def get_color_points (hue saturation warmth : ℝ) (pb : LUVColor)
    (pb_hue pb_saturation : ℝ) : ColorPoints :=
  let p0 : LUVColor := ⟨0, lch_to_luv_u 0 hue, lch_to_luv_v 0 hue⟩
  let p1 := most_saturated_in_srgb hue
  let p2l := (1 - warmth) * 100 + warmth * pb.l
  let p2h := mix_hue warmth hue pb_hue
  let p2c := lch_chroma p2l (min (Smax p2l p2h) (warmth * saturation * pb_saturation))
  let p2 : LUVColor := ⟨p2l, lch_to_luv_u p2c p2h, lch_to_luv_v p2c p2h⟩
  let q0 := luvAdd (luvSmul (1 - saturation) p0) (luvSmul saturation p1)
  let q2 := luvAdd (luvSmul (1 - saturation) p2) (luvSmul saturation p1)
  let q1 := luvSmul 0.5 (luvAdd q0 q2)
  ⟨p0, p1, p2, q0, q1, q2⟩

def B (b0 b1 b2 : LUVColor) (t : ℝ) : LUVColor :=
  luvAdd (luvAdd (luvSmul ((1 - t) * (1 - t)) b0) (luvSmul (2 * (1 - t) * t) b1))
    (luvSmul (t * t) b2)

def invB (b0 b1 b2 v : ℝ) : ℝ :=
  (b0 - b1 + Real.sqrt (max (b1 * b1 - b0 * b2 + (b0 - 2 * b1 + b2) * v) 0))
    / (b0 - 2 * b1 + b2)

/-- The target lightness `l` computed on the first line of
`get_colormap_entry`. -/
def target_l (contrast brightness t : ℝ) : ℝ :=
  125 - 125 * (0.2 : ℝ) ^ ((1 - contrast) * brightness + t * contrast)

/-- The remainder of `get_colormap_entry` after the target lightness is
known: invert the piecewise quadratic Bezier and evaluate it. -/
def entry_from_l (lv : ℝ) (p0 p2 q0 q1 q2 : LUVColor) : LUVColor :=
  let T := if lv ≤ q1.l then 0.5 * invB p0.l q0.l q1.l lv
           else 0.5 * invB q1.l q2.l p2.l lv + 0.5
  if T ≤ 0.5 then B p0 q0 q1 (2 * T) else B q1 q2 p2 (2 * (T - 0.5))

def get_colormap_entry (t : ℝ) (p0 p2 q0 q1 q2 : LUVColor)
    (contrast brightness : ℝ) : LUVColor :=
  entry_from_l (target_l contrast brightness t) p0 p2 q0 q1 q2

/- Conversion of a LUV colormap entry to three output bytes
(lines 356-367); C `std::round` rounds half away from zero, and the
store into `unsigned char` keeps the integral value (in range here). -/

def roundc (x : ℝ) : ℤ := if 0 ≤ x then ⌊x + 1 / 2⌋ else ⌈x - 1 / 2⌉

def rgb_to_srgb (r g b : ℝ) : ℝ × ℝ × ℝ :=
  (rgb_to_srgb_helper r, rgb_to_srgb_helper g, rgb_to_srgb_helper b)

def convert_colormap_entry (c : LUVColor) : ℤ × ℤ × ℤ :=
  let xyz := luv_to_xyz c.l c.u c.v
  let rgb := xyz_to_rgb xyz.1 xyz.2.1 xyz.2.2
  let s := rgb_to_srgb rgb.1 rgb.2.1 rgb.2.2
  (roundc (s.1 * 255), roundc (s.2.1 * 255), roundc (s.2.2 * 255))

/- Brewer-like color map generators (lines 369-495).  The per-call
bright-point derived quantities `pbc`, `pbh`, `pbs`. -/

def pbc : ℝ := luv_to_lch_c bright_point.u bright_point.v
def pbh : ℝ := luv_to_lch_h bright_point.u bright_point.v
def pbs : ℝ := lch_saturation bright_point.l pbc

/-- The color `BrewerSequential` samples at curve parameter `t`. -/
def brewerSequentialSample (hue contrast saturation brightness warmth t : ℝ) : LUVColor :=
  let cp := get_color_points hue saturation warmth bright_point pbh pbs
  get_colormap_entry t cp.p0 cp.p2 cp.q0 cp.q1 cp.q2 contrast brightness

def brewerSequentialColor (n i : ℕ)
    (hue contrast saturation brightness warmth : ℝ) : LUVColor :=
  brewerSequentialSample hue contrast saturation brightness warmth
    (((n - 1 - i : ℕ) : ℝ) / ((n : ℝ) - 1))

def BrewerSequential (n : ℕ) (hue contrast saturation brightness warmth : ℝ) :
    List LUVColor :=
  (List.range n).map fun i => brewerSequentialColor n i hue contrast saturation brightness warmth

def BrewerSequentialBytes (n : ℕ) (hue contrast saturation brightness warmth : ℝ) :
    List (ℤ × ℤ × ℤ) :=
  (BrewerSequential n hue contrast saturation brightness warmth).map convert_colormap_entry

/-- The second hue of `BrewerDiverging`: `hue + divergence`, wrapped once. -/
def divergingHue1 (hue divergence : ℝ) : ℝ :=
  if twopi ≤ hue + divergence then hue + divergence - twopi else hue + divergence

/-- The color the first half-profile of `BrewerDiverging` samples at folded
parameter `tt`. -/
def brewerDivergingSample0 (hue divergence contrast saturation brightness warmth tt : ℝ) :
    LUVColor :=
  let cp0 := get_color_points hue saturation warmth bright_point pbh pbs
  get_colormap_entry tt cp0.p0 cp0.p2 cp0.q0 cp0.q1 cp0.q2 contrast brightness

/-- The color the second half-profile of `BrewerDiverging` samples at folded
parameter `tt`. -/
def brewerDivergingSample1 (hue divergence contrast saturation brightness warmth tt : ℝ) :
    LUVColor :=
  let cp1 := get_color_points (divergingHue1 hue divergence) saturation warmth
    bright_point pbh pbs
  get_colormap_entry tt cp1.p0 cp1.p2 cp1.q0 cp1.q1 cp1.q2 contrast brightness

def brewerDivergingColor (n i : ℕ)
    (hue divergence contrast saturation brightness warmth : ℝ) : LUVColor :=
  let hue1 := divergingHue1 hue divergence
  let cp0 := get_color_points hue saturation warmth bright_point pbh pbs
  let cp1 := get_color_points hue1 saturation warmth bright_point pbh pbs
  if n % 2 = 1 ∧ i = n / 2 then
    let c0 := get_colormap_entry 1 cp0.p0 cp0.p2 cp0.q0 cp0.q1 cp0.q2 contrast brightness
    let c1 := get_colormap_entry 1 cp1.p0 cp1.p2 cp1.q0 cp1.q1 cp1.q2 contrast brightness
    if n ≤ 9 then
      let c0s := luv_saturation c0.l c0.u c0.v
      let c1s := luv_saturation c1.l c1.u c1.v
      let sn := 0.5 * (c0s + c1s) * warmth
      let cl := 0.5 * (c0.l + c1.l)
      let cc := lch_chroma cl (min (Smax cl pbh) sn)
      ⟨cl, lch_to_luv_u cc pbh, lch_to_luv_v cc pbh⟩
    else
      luvSmul 0.5 (luvAdd c0 c1)
  else
    let t := (i : ℝ) / ((n : ℝ) - 1)
    if i < n / 2 then
      get_colormap_entry (2 * t) cp0.p0 cp0.p2 cp0.q0 cp0.q1 cp0.q2 contrast brightness
    else
      get_colormap_entry (2 * (1 - t)) cp1.p0 cp1.p2 cp1.q0 cp1.q1 cp1.q2 contrast brightness

def BrewerDiverging (n : ℕ)
    (hue divergence contrast saturation brightness warmth : ℝ) : List LUVColor :=
  (List.range n).map fun i =>
    brewerDivergingColor n i hue divergence contrast saturation brightness warmth

def BrewerDivergingBytes (n : ℕ)
    (hue divergence contrast saturation brightness warmth : ℝ) : List (ℤ × ℤ × ℤ) :=
  (BrewerDiverging n hue divergence contrast saturation brightness warmth).map
    convert_colormap_entry

/- BrewerQualitative (lines 447-495). -/

def HueDiff (h0 h1 : ℝ) : ℝ :=
  let t := |h1 - h0|
  if t < π then t else twopi - t

/-- Yellow's LUV lightness, memoized by the source on first call. -/
def yellow_l : ℝ :=
  let xyz := rgb_to_xyz 1 1 0
  (xyz_to_luv xyz.1 xyz.2.1 xyz.2.2).l

/-- Yellow's LCH hue, memoized by the source on first call. -/
def yellow_h : ℝ :=
  let xyz := rgb_to_xyz 1 1 0
  let c := xyz_to_luv xyz.1 xyz.2.1 xyz.2.2
  luv_to_lch_h c.u c.v

/-- Red's LUV saturation, memoized by the source on first call. -/
def red_s : ℝ :=
  let xyz := rgb_to_xyz 1 0 0
  let c := xyz_to_luv xyz.1 xyz.2.1 xyz.2.2
  luv_saturation c.l c.u c.v

/-- The color `BrewerQualitative` generates at curve parameter `t`. -/
def brewerQualitativeSample (hue divergence contrast saturation brightness t : ℝ) :
    LUVColor :=
  let eps := hue / twopi
  let r := divergence / twopi
  let l0 := brightness * yellow_l
  let l1 := (1 - contrast) * l0
  let ch := fmod (twopi * (eps + t * r)) twopi
  let alpha := HueDiff ch yellow_h / π
  let cl := (1 - alpha) * l0 + alpha * l1
  let cs := min (Smax cl ch) (saturation * red_s)
  ⟨cl, lch_to_luv_u (lch_chroma cl cs) ch, lch_to_luv_v (lch_chroma cl cs) ch⟩

def brewerQualitativeColor (n i : ℕ)
    (hue divergence contrast saturation brightness : ℝ) : LUVColor :=
  brewerQualitativeSample hue divergence contrast saturation brightness
    ((i : ℝ) / ((n : ℝ) - 1))

def BrewerQualitative (n : ℕ)
    (hue divergence contrast saturation brightness : ℝ) : List LUVColor :=
  (List.range n).map fun i =>
    brewerQualitativeColor n i hue divergence contrast saturation brightness

def BrewerQualitativeBytes (n : ℕ)
    (hue divergence contrast saturation brightness : ℝ) : List (ℤ × ℤ × ℤ) :=
  (BrewerQualitative n hue divergence contrast saturation brightness).map
    convert_colormap_entry

/- CubeHelix (lines 497-542). -/

/-- The three channel values the CubeHelix loop body computes at parameter
`fract = i/(n-1)` before any clamping.  The source reassigns
`fract = pow(fract, gamma)` after the angle is computed, so the amplitude
uses the gamma-warped `fract`. -/
def cubeHelixRawAt (hue rot saturation gamma fract : ℝ) : ℝ × ℝ × ℝ :=
  let angle := twopi * (hue / 3 + 1 + rot * fract)
  let fract2 := fract ^ gamma
  let amp := saturation * fract2 * (1 - fract2) / 2
  (fract2 + amp * (-0.14861 * Real.cos angle + 1.78277 * Real.sin angle),
   fract2 + amp * (-0.29227 * Real.cos angle - 0.90649 * Real.sin angle),
   fract2 + amp * (1.97294 * Real.cos angle))

def cubeHelixRaw (n i : ℕ) (hue rot saturation gamma : ℝ) : ℝ × ℝ × ℝ :=
  cubeHelixRawAt hue rot saturation gamma ((i : ℝ) / ((n : ℝ) - 1))

/-- One channel of the clamping if-chain: the clamped value together with
whether either branch fired. -/
def clampWithFlag (x : ℝ) : ℝ × Bool :=
  if x < 0 then (0, true) else if 1 < x then (1, true) else (x, false)

/-- The clamped channels and per-color clipped flag of the loop body at
parameter `fract`. -/
def cubeHelixEntryAt (hue rot saturation gamma fract : ℝ) : (ℝ × ℝ × ℝ) × Bool :=
  let raw := cubeHelixRawAt hue rot saturation gamma fract
  let rc := clampWithFlag raw.1
  let gc := clampWithFlag raw.2.1
  let bc := clampWithFlag raw.2.2
  ((rc.1, gc.1, bc.1), rc.2 || gc.2 || bc.2)

/-- The clamped channels and per-color clipped flag for index `i`. -/
def cubeHelixEntry (n i : ℕ) (hue rot saturation gamma : ℝ) : (ℝ × ℝ × ℝ) × Bool :=
  cubeHelixEntryAt hue rot saturation gamma ((i : ℝ) / ((n : ℝ) - 1))

/-- C cast of a nonnegative float to `unsigned char` truncates. -/
def cast_uchar (x : ℝ) : ℤ := if 0 ≤ x then ⌊x⌋ else ⌈x⌉

def cubeHelixBytes (e : ℝ × ℝ × ℝ) : ℤ × ℤ × ℤ :=
  (cast_uchar (e.1 * 255), cast_uchar (e.2.1 * 255), cast_uchar (e.2.2 * 255))

/-- The full CubeHelix generator: the list of output byte triples together
with the number of colors that needed clamping. -/
def CubeHelix (n : ℕ) (hue rot saturation gamma : ℝ) : List (ℤ × ℤ × ℤ) × ℕ :=
  let entries := (List.range n).map fun i => cubeHelixEntry n i hue rot saturation gamma
  (entries.map fun e => cubeHelixBytes e.1, entries.countP fun e => e.2)

/- A concrete parameter point for `BrewerDiverging`, chosen so the whole
Bezier pipeline evaluates in closed form: hue at the bright point's own
hue, divergence 0, contrast 0, saturation 1/2, warmth 1/2, and brightness
chosen so the midpoint target lightness lands exactly on `p2`'s
lightness. -/

def c4P : ℝ := 50 + bright_point.l / 2

def c4brightness : ℝ := Real.logb 0.2 ((125 - c4P) / 125)

/-- The half-profile endpoint colors `c0`, `c1` computed by
`BrewerDiverging` for the middle entry at this parameter point. -/
def c4c0 : LUVColor := brewerDivergingSample0 pbh 0 0 (1 / 2) c4brightness (1 / 2) 1

def c4c1 : LUVColor := brewerDivergingSample1 pbh 0 0 (1 / 2) c4brightness (1 / 2) 1

/-- The middle entry of `BrewerDiverging 3` at this parameter point. -/
def c4color : LUVColor := brewerDivergingColor 3 1 pbh 0 0 (1 / 2) c4brightness (1 / 2)

/-- The hue of the `i`-th `BrewerQualitative` entry. -/
def qualitativeHue (n i : ℕ) (hue divergence : ℝ) : ℝ :=
  fmod (twopi * (hue / twopi + ((i : ℝ) / ((n : ℝ) - 1)) * (divergence / twopi))) twopi

/-- The lightness of the `i`-th `BrewerQualitative` entry. -/
def qualitativeLightness (n i : ℕ) (hue divergence contrast brightness : ℝ) : ℝ :=
  let ch := qualitativeHue n i hue divergence
  let alpha := HueDiff ch yellow_h / π
  (1 - alpha) * (brightness * yellow_l) + alpha * ((1 - contrast) * (brightness * yellow_l))

/-- The lightness component of the quadratic Bezier `B`. -/
def Blq (b0 b1 b2 t : ℝ) : ℝ :=
  (1 - t) * (1 - t) * b0 + 2 * (1 - t) * t * b1 + t * t * b2

/- ------------------------------------------------------------------ -/
/- Basic lemmas about the conversion layer.                           -/
/- ------------------------------------------------------------------ -/

theorem clamp_le (x lo hi : ℝ) (h : lo ≤ hi) : clamp x lo hi ≤ hi := min_le_right _ _

theorem le_clamp (x lo hi : ℝ) (h : lo ≤ hi) : lo ≤ clamp x lo hi :=
  le_min (le_max_right _ _) h

theorem cbrt_cube {a : ℝ} (ha : 0 ≤ a) : cbrt (a ^ 3) = a := by
  rw [cbrt, ← Real.rpow_natCast a 3, ← Real.rpow_mul ha]
  norm_num

theorem cbrt_le_cbrt {a b : ℝ} (ha : 0 ≤ a) (hab : a ≤ b) : cbrt a ≤ cbrt b :=
  Real.rpow_le_rpow ha hab (by norm_num)

theorem cbrt_lt_one {a : ℝ} (ha : 0 ≤ a) (h1 : a < 1) : cbrt a < 1 :=
  Real.rpow_lt_one ha h1 (by norm_num)

theorem srgb_to_rgb_helper_zero : srgb_to_rgb_helper 0 = 0 := by
  rw [srgb_to_rgb_helper]; norm_num

theorem srgb_to_rgb_helper_one : srgb_to_rgb_helper 1 = 1 := by
  rw [srgb_to_rgb_helper, if_neg (by norm_num),
    show ((1 : ℝ) + 0.055) / 1.055 = 1 by norm_num, Real.one_rpow]

theorem srgb_to_rgb_helper_nonneg {x : ℝ} (hx : 0 ≤ x) : 0 ≤ srgb_to_rgb_helper x := by
  rw [srgb_to_rgb_helper]
  split
  · positivity
  · positivity

theorem srgb_to_rgb_helper_le_one {x : ℝ} (hx : x ≤ 1) : srgb_to_rgb_helper x ≤ 1 := by
  rw [srgb_to_rgb_helper]
  split
  · rename_i h
    rw [div_le_one (by norm_num)]
    linarith
  · rename_i h
    push_neg at h
    have hb : (0 : ℝ) ≤ (x + 0.055) / 1.055 := by norm_num at h ⊢; linarith
    have hb1 : (x + 0.055) / 1.055 ≤ 1 := by norm_num at h ⊢; linarith
    exact Real.rpow_le_one hb hb1 (by norm_num)

theorem rgb_to_srgb_helper_zero : rgb_to_srgb_helper 0 = 0 := by
  rw [rgb_to_srgb_helper]; norm_num

theorem rgb_to_srgb_helper_one : rgb_to_srgb_helper 1 = 1 := by
  rw [rgb_to_srgb_helper, if_neg (by norm_num), Real.one_rpow]
  norm_num

theorem rgb_to_srgb_helper_nonneg {x : ℝ} (hx : 0 ≤ x) : 0 ≤ rgb_to_srgb_helper x := by
  rw [rgb_to_srgb_helper]
  split
  · positivity
  · rename_i h
    push_neg at h
    have hb : ((0.055 : ℝ) / 1.055) ^ (2.4 : ℝ) ≤ x := by
      calc ((0.055 : ℝ) / 1.055) ^ (2.4 : ℝ)
          ≤ ((0.055 : ℝ) / 1.055) ^ ((2 : ℕ) : ℝ) := by
            apply Real.rpow_le_rpow_of_exponent_ge (by norm_num) (by norm_num)
            norm_num
        _ = ((0.055 : ℝ) / 1.055) ^ (2 : ℕ) := Real.rpow_natCast _ 2
        _ ≤ 0.0031308 := by norm_num
        _ ≤ x := h.le
    have hroot : (0.055 : ℝ) / 1.055 ≤ x ^ ((1 : ℝ) / 2.4) := by
      have step := Real.rpow_le_rpow (z := (1 : ℝ) / 2.4) (by positivity) hb (by norm_num)
      rwa [← Real.rpow_mul (by norm_num), show (2.4 : ℝ) * (1 / 2.4) = 1 by norm_num,
        Real.rpow_one] at step
    nlinarith [hroot]

theorem rgb_to_srgb_helper_le_one {x : ℝ} (hx : 0 ≤ x) (h1 : x ≤ 1) :
    rgb_to_srgb_helper x ≤ 1 := by
  rw [rgb_to_srgb_helper]
  split
  · linarith
  · have : x ^ ((1 : ℝ) / 2.4) ≤ 1 := Real.rpow_le_one hx h1 (by norm_num)
    nlinarith [this]

/- Lightness as a function of Y. -/

theorem luv_l_of_y_nonneg {y : ℝ} (hy : 0 ≤ y) : 0 ≤ luv_l_of_y y := by
  rw [luv_l_of_y, d65_y]
  split
  · positivity
  · rename_i h
    push_neg at h
    have h8 : (6 : ℝ) / 29 ≤ cbrt (y / 100) := by
      calc (6 : ℝ) / 29 = cbrt (((6 : ℝ) / 29) ^ 3) := (cbrt_cube (by norm_num)).symm
        _ ≤ cbrt (y / 100) := cbrt_le_cbrt (by norm_num) (by norm_num at h ⊢; linarith)
    nlinarith [h8]

theorem luv_l_of_y_pos {y : ℝ} (hy : 0 < y) : 0 < luv_l_of_y y := by
  rw [luv_l_of_y, d65_y]
  split
  · positivity
  · rename_i h
    push_neg at h
    have h8 : (6 : ℝ) / 29 ≤ cbrt (y / 100) := by
      calc (6 : ℝ) / 29 = cbrt (((6 : ℝ) / 29) ^ 3) := (cbrt_cube (by norm_num)).symm
        _ ≤ cbrt (y / 100) := cbrt_le_cbrt (by norm_num) (by norm_num at h ⊢; linarith)
    nlinarith [h8]

theorem luv_l_of_y_lt_100 {y : ℝ} (hy : y < 100) : luv_l_of_y y < 100 := by
  rw [luv_l_of_y, d65_y]
  split
  · rename_i h
    norm_num at h ⊢
    linarith
  · rename_i h
    push_neg at h
    norm_num at h ⊢
    have h0 : (0 : ℝ) ≤ y / 100 := by nlinarith
    have h1 : cbrt (y / 100) < 1 := cbrt_lt_one h0 (by linarith)
    linarith

theorem luv_l_of_y_mono {y1 y2 : ℝ} (h0 : 0 ≤ y1) (h : y1 ≤ y2) :
    luv_l_of_y y1 ≤ luv_l_of_y y2 := by
  have key8 : ∀ z : ℝ, z / d65_y ≤ 6 * 6 * 6 / (29 * 29 * 29) →
      29 * 29 * 29 / (3 * 3 * 3) * (z / d65_y) ≤ 8 := by
    intro z hz
    rw [d65_y] at hz ⊢
    nlinarith
  have key8' : ∀ z : ℝ, 0 ≤ z → 6 * 6 * 6 / (29 * 29 * 29) < z / d65_y →
      8 ≤ 116 * cbrt (z / d65_y) - 16 := by
    intro z hz hz'
    rw [d65_y] at hz' ⊢
    have : (6 : ℝ) / 29 ≤ cbrt (z / 100) := by
      calc (6 : ℝ) / 29 = cbrt (((6 : ℝ) / 29) ^ 3) := (cbrt_cube (by norm_num)).symm
        _ ≤ cbrt (z / 100) := cbrt_le_cbrt (by norm_num) (by norm_num at hz' ⊢; linarith)
    nlinarith [this]
  rw [luv_l_of_y, luv_l_of_y]
  split
  · split
    · rename_i h1 h2
      rw [d65_y]
      gcongr
    · rename_i h1 h2
      push_neg at h2
      exact le_trans (key8 y1 h1) (key8' y2 (le_trans h0 h) h2)
  · split
    · rename_i h1 h2
      push_neg at h1
      exfalso
      rw [d65_y] at h1 h2
      have : y1 ≤ y2 := h
      nlinarith
    · rename_i h1 h2
      push_neg at h1
      have hc : cbrt (y1 / d65_y) ≤ cbrt (y2 / d65_y) := by
        apply cbrt_le_cbrt _ (by rw [d65_y]; gcongr <;> norm_num)
        rw [d65_y]; positivity
      linarith

/- Numeric bounds on the bright point's lightness
`bright_point.l = luv_l_of_y 92.78`. -/

theorem bright_point_l_eq : bright_point.l = luv_l_of_y 92.78 := by
  rw [bright_point, rgb_to_xyz, xyz_to_luv]
  norm_num

theorem bright_point_l_gt_90 : 90 < bright_point.l := by
  rw [bright_point_l_eq, luv_l_of_y, d65_y]
  rw [if_neg (by norm_num)]
  have : (0.9138 : ℝ) ≤ cbrt (92.78 / 100) := by
    calc (0.9138 : ℝ) = cbrt ((0.9138 : ℝ) ^ 3) := (cbrt_cube (by norm_num)).symm
      _ ≤ cbrt (92.78 / 100) := cbrt_le_cbrt (by norm_num) (by norm_num)
  nlinarith [this]

theorem bright_point_l_lt_100 : bright_point.l < 100 := by
  rw [bright_point_l_eq]
  exact luv_l_of_y_lt_100 (by norm_num)

theorem bright_point_l_pos : 0 < bright_point.l := by
  linarith [bright_point_l_gt_90]

/- arctan toolbox. -/

theorem arctan_lt_self {x : ℝ} (hx : 0 < x) : arctan x < x := by
  have h1 : 0 < arctan x := by
    have := Real.arctan_strictMono hx
    rwa [Real.arctan_zero] at this
  have h2 := Real.lt_tan h1 (Real.arctan_lt_pi_div_two x)
  rwa [Real.tan_arctan] at h2

theorem arctan_le_self {x : ℝ} (hx : 0 ≤ x) : arctan x ≤ x := by
  rcases eq_or_lt_of_le hx with h | h
  · rw [← h, Real.arctan_zero]
  · exact (arctan_lt_self h).le

theorem arctan_sqrt_three : arctan (Real.sqrt 3) = π / 3 := by
  have ht : Real.tan (π / 3) = Real.sqrt 3 := by
    rw [Real.tan_eq_sin_div_cos, Real.sin_pi_div_three, Real.cos_pi_div_three]
    field_simp
  rw [← ht]
  exact Real.arctan_tan (by linarith [pi_pos]) (by linarith [pi_pos])

theorem arctan_ge_pi_div_three {x : ℝ} (hx : Real.sqrt 3 ≤ x) : π / 3 ≤ arctan x := by
  rw [← arctan_sqrt_three]
  exact Real.arctan_strictMono.monotone hx

theorem arctan_nonneg' {x : ℝ} (hx : 0 ≤ x) : 0 ≤ arctan x := by
  rw [← Real.arctan_zero]
  exact Real.arctan_strictMono.monotone hx

theorem arctan_nonpos' {x : ℝ} (hx : x ≤ 0) : arctan x ≤ 0 := by
  rw [← Real.arctan_zero]
  exact Real.arctan_strictMono.monotone hx

theorem arctan_pos' {x : ℝ} (hx : 0 < x) : 0 < arctan x := by
  rw [← Real.arctan_zero]
  exact Real.arctan_strictMono hx

theorem arctan_neg' {x : ℝ} (hx : x < 0) : arctan x < 0 := by
  rw [← Real.arctan_zero]
  exact Real.arctan_strictMono hx

/- Quadrant analysis of `atan2` and the normalized LCH hue `luv_to_lch_h`. -/

theorem atan2_of_pos {y x : ℝ} (hx : 0 < x) : atan2 y x = arctan (y / x) := by
  rw [atan2, if_pos hx]

theorem atan2_of_neg_nonneg {y x : ℝ} (hx : x < 0) (hy : 0 ≤ y) :
    atan2 y x = arctan (y / x) + π := by
  rw [atan2, if_neg (not_lt.mpr hx.le), if_pos hx, if_pos hy]

theorem atan2_of_neg_neg {y x : ℝ} (hx : x < 0) (hy : y < 0) :
    atan2 y x = arctan (y / x) - π := by
  rw [atan2, if_neg (not_lt.mpr hx.le), if_pos hx, if_neg (not_le.mpr hy)]

theorem luv_to_lch_h_def (u v : ℝ) :
    luv_to_lch_h u v = if atan2 v u < 0 then atan2 v u + twopi else atan2 v u := rfl

theorem lch_h_quadrant1 {u v : ℝ} (hu : 0 < u) (hv : 0 ≤ v) :
    luv_to_lch_h u v = arctan (v / u) ∧
    0 ≤ luv_to_lch_h u v ∧ luv_to_lch_h u v < π / 2 := by
  have ha : atan2 v u = arctan (v / u) := atan2_of_pos hu
  have hnn : 0 ≤ arctan (v / u) := arctan_nonneg' (by positivity)
  have hval : luv_to_lch_h u v = arctan (v / u) := by
    rw [luv_to_lch_h_def, ha, if_neg (not_lt.mpr hnn)]
  exact ⟨hval, by rw [hval]; exact hnn, by rw [hval]; exact Real.arctan_lt_pi_div_two _⟩

theorem lch_h_quadrant2 {u v : ℝ} (hu : u < 0) (hv : 0 ≤ v) :
    luv_to_lch_h u v = arctan (v / u) + π ∧
    π / 2 < luv_to_lch_h u v ∧ luv_to_lch_h u v ≤ π := by
  have hratio : v / u ≤ 0 := div_nonpos_iff.mpr (Or.inl ⟨hv, hu.le⟩)
  have ha : atan2 v u = arctan (v / u) + π := atan2_of_neg_nonneg hu hv
  have hlow := Real.neg_pi_div_two_lt_arctan (v / u)
  have hval : luv_to_lch_h u v = arctan (v / u) + π := by
    rw [luv_to_lch_h_def, ha, if_neg (by push_neg; linarith [pi_pos])]
  refine ⟨hval, ?_, ?_⟩
  · rw [hval]; linarith
  · rw [hval]; linarith [arctan_nonpos' hratio]

theorem lch_h_quadrant3 {u v : ℝ} (hu : u < 0) (hv : v < 0) :
    luv_to_lch_h u v = arctan (v / u) + π ∧
    π < luv_to_lch_h u v ∧ luv_to_lch_h u v < 3 * π / 2 := by
  have hratio : 0 < v / u := div_pos_iff.mpr (Or.inr ⟨hv, hu⟩)
  have ha : atan2 v u = arctan (v / u) - π := atan2_of_neg_neg hu hv
  have hup := Real.arctan_lt_pi_div_two (v / u)
  have hpos := arctan_pos' hratio
  have hval : luv_to_lch_h u v = arctan (v / u) + π := by
    rw [luv_to_lch_h_def, ha, if_pos (by linarith [pi_pos]), twopi]
    ring
  refine ⟨hval, ?_, ?_⟩
  · rw [hval]; linarith
  · rw [hval]; linarith

theorem lch_h_quadrant4 {u v : ℝ} (hu : 0 < u) (hv : v < 0) :
    luv_to_lch_h u v = arctan (v / u) + twopi ∧
    3 * π / 2 < luv_to_lch_h u v ∧ luv_to_lch_h u v < twopi := by
  have hratio : v / u < 0 := div_neg_of_neg_of_pos hv hu
  have ha : atan2 v u = arctan (v / u) := atan2_of_pos hu
  have hneg := arctan_neg' hratio
  have hlow := Real.neg_pi_div_two_lt_arctan (v / u)
  have hval : luv_to_lch_h u v = arctan (v / u) + twopi := by
    rw [luv_to_lch_h_def, ha, if_pos hneg]
  refine ⟨hval, ?_, ?_⟩
  · rw [hval, twopi]; linarith
  · rw [hval, twopi]; linarith

/-- The normalized LCH hue always lies in `[0, 2π)`. -/
theorem lch_h_mem {u v : ℝ} : 0 ≤ luv_to_lch_h u v ∧ luv_to_lch_h u v < twopi := by
  have hpi := pi_pos
  rcases lt_trichotomy u 0 with hu | hu | hu
  · rcases le_or_lt 0 v with hv | hv
    · obtain ⟨-, h1, h2⟩ := lch_h_quadrant2 hu hv
      exact ⟨by linarith, by rw [twopi]; linarith⟩
    · obtain ⟨-, h1, h2⟩ := lch_h_quadrant3 hu hv
      exact ⟨by linarith, by rw [twopi]; linarith⟩
  · subst hu
    have hz : atan2 v 0 = if 0 < v then π / 2 else if v < 0 then -(π / 2) else 0 := by
      rw [atan2, if_neg (lt_irrefl 0), if_neg (lt_irrefl 0)]
    rcases lt_trichotomy v 0 with hv | hv | hv
    · have hz' : atan2 v 0 = -(π / 2) := by
        rw [hz, if_neg (by linarith), if_pos hv]
      have : luv_to_lch_h 0 v = -(π / 2) + twopi := by
        rw [luv_to_lch_h_def, hz', if_pos (by linarith)]
      rw [this, twopi]
      constructor <;> linarith
    · subst hv
      have hz' : atan2 (0 : ℝ) 0 = 0 := by
        rw [hz, if_neg (lt_irrefl 0), if_neg (lt_irrefl 0)]
      have : luv_to_lch_h 0 0 = 0 := by
        rw [luv_to_lch_h_def, hz', if_neg (lt_irrefl 0)]
      rw [this, twopi]
      constructor <;> linarith
    · have hz' : atan2 v 0 = π / 2 := by rw [hz, if_pos hv]
      have : luv_to_lch_h 0 v = π / 2 := by
        rw [luv_to_lch_h_def, hz', if_neg (by push_neg; linarith)]
      rw [this, twopi]
      constructor <;> linarith
  · rcases le_or_lt 0 v with hv | hv
    · obtain ⟨-, h1, h2⟩ := lch_h_quadrant1 hu hv
      exact ⟨by linarith, by rw [twopi]; linarith⟩
    · obtain ⟨-, h1, h2⟩ := lch_h_quadrant4 hu hv
      exact ⟨by linarith, h2⟩

/- The solved channel of a gamut sector lies in `[0,1]`. -/

theorem sector_solve_nonneg (hue Xi Yi Zi Xk Yk Zk : ℝ) :
    0 ≤ sector_solve hue Xi Yi Zi Xk Yk Zk := by
  rw [sector_solve]
  exact rgb_to_srgb_helper_nonneg (le_clamp _ 0 1 (by norm_num))

theorem sector_solve_le_one (hue Xi Yi Zi Xk Yk Zk : ℝ) :
    sector_solve hue Xi Yi Zi Xk Yk Zk ≤ 1 := by
  rw [sector_solve]
  exact rgb_to_srgb_helper_le_one (le_clamp _ 0 1 (by norm_num))
    (clamp_le _ 0 1 (by norm_num))

/- ------------------------------------------------------------------ -/
/- Claim C1.                                                          -/
/- ------------------------------------------------------------------ -/

/-- C1: for every hue in `[0, 2π)` the LUV color returned by the gamut
boundary solver `most_saturated_in_srgb` is the LUV image of an sRGB triple
with at least one channel exactly `0` and at least one channel exactly `1`
(the solver fixes two channels of the triple to `0` and `1` in every
sector and only solves for the third), i.e. it lies exactly on the sRGB
cube's boundary. -/
theorem most_saturated_on_srgb_boundary (hue : ℝ) (h0 : 0 ≤ hue) (h1 : hue < twopi) :
    ∃ sr sg sb : ℝ,
      most_saturated_in_srgb hue = srgb_to_luv sr sg sb ∧
      (sr = 0 ∨ sg = 0 ∨ sb = 0) ∧ (sr = 1 ∨ sg = 1 ∨ sb = 1) := by
  refine ⟨(most_saturated_srgb_triple hue).1, (most_saturated_srgb_triple hue).2.1,
    (most_saturated_srgb_triple hue).2.2, rfl, ?_⟩
  rw [most_saturated_srgb_triple]
  split_ifs <;> norm_num

theorem most_saturated_on_srgb_boundary_witness :
    (0 ≤ (0 : ℝ) ∧ (0 : ℝ) < twopi) ∧
      ∃ sr sg sb : ℝ,
        most_saturated_in_srgb 0 = srgb_to_luv sr sg sb ∧
        (sr = 0 ∨ sg = 0 ∨ sb = 0) ∧ (sr = 1 ∨ sg = 1 ∨ sb = 1) :=
  ⟨⟨le_refl 0, by rw [twopi]; positivity⟩,
    most_saturated_on_srgb_boundary 0 (le_refl 0) (by rw [twopi]; positivity)⟩

/- ------------------------------------------------------------------ -/
/- Claim C6.                                                          -/
/- ------------------------------------------------------------------ -/

/-- C6 (code bug): the claim says `u_prime` and `v_prime` guard against an
extremely small denominator so that at `(0,0,0)` the result is treated as
`0`.  The source has no guard: at `(0,0,0)` the denominator
`x + 15y + 3z` is exactly `0` and both helpers compute `0/0` (IEEE NaN,
modeled as `none`), so `xyz_to_luv` is not total at black. -/
theorem u_v_prime_unguarded_at_black :
    ((0 : ℝ) + 15 * 0 + 3 * 0 = 0) ∧
    u_prime_checked 0 0 0 = none ∧ v_prime_checked 0 0 0 = none := by
  refine ⟨by norm_num, ?_, ?_⟩ <;>
    simp [u_prime_checked, v_prime_checked]

/- ------------------------------------------------------------------ -/
/- CubeHelix support lemmas.                                          -/
/- ------------------------------------------------------------------ -/

theorem clampWithFlag_fst (x : ℝ) : (clampWithFlag x).1 = clamp x 0 1 := by
  rw [clampWithFlag, clamp]
  split_ifs with h1 h2
  · rw [max_eq_right h1.le, min_eq_left (by norm_num)]
  · rw [max_eq_left (by linarith), min_eq_right (by linarith)]
  · push_neg at h1 h2
    rw [max_eq_left h1, min_eq_left h2]

theorem clampWithFlag_snd (x : ℝ) :
    (clampWithFlag x).2 = true ↔ (x < 0 ∨ 1 < x) := by
  rw [clampWithFlag]
  split_ifs with h1 h2
  · simp [h1]
  · simp [h2]
  · simp [h1, h2]

theorem cubeHelix_length (n : ℕ) (hue rot saturation gamma : ℝ) :
    (CubeHelix n hue rot saturation gamma).1.length = n := by
  rw [CubeHelix]
  simp

theorem cubeHelix_get (n i : ℕ) (hi : i < n) (hue rot saturation gamma : ℝ) :
    (CubeHelix n hue rot saturation gamma).1.get? i =
      some (cubeHelixBytes (cubeHelixEntry n i hue rot saturation gamma).1) := by
  show (((List.range n).map fun i => cubeHelixEntry n i hue rot saturation gamma).map
    fun e => cubeHelixBytes e.1).get? i = _
  rw [List.get?_map, List.get?_map, List.get?_range hi]
  rfl

theorem cubeHelix_count (n : ℕ) (hue rot saturation gamma : ℝ) :
    (CubeHelix n hue rot saturation gamma).2 =
      ((List.range n).filter fun i =>
        (cubeHelixEntry n i hue rot saturation gamma).2).length := by
  show ((List.range n).map fun i => cubeHelixEntry n i hue rot saturation gamma).countP
    (fun e => e.2) = _
  rw [List.countP_map, List.countP_eq_length_filter]
  rfl

/- ------------------------------------------------------------------ -/
/- Claim C9.                                                          -/
/- ------------------------------------------------------------------ -/

/-- C9: CubeHelix clamps each of the three channels independently to
`[0,1]`; the clip count equals the number of colors any of whose raw
channels left `[0,1]` (counted once per color, however many channels were
clamped), and a color whose channels all stayed in `[0,1]` contributes
nothing. -/
theorem cubeHelix_clip_semantics (n : ℕ) (hue rot saturation gamma : ℝ) :
    ((CubeHelix n hue rot saturation gamma).2 =
      ((List.range n).filter fun i =>
        (cubeHelixEntry n i hue rot saturation gamma).2).length) ∧
    (∀ i, (cubeHelixEntry n i hue rot saturation gamma).2 = true ↔
      ((cubeHelixRaw n i hue rot saturation gamma).1 < 0 ∨
        1 < (cubeHelixRaw n i hue rot saturation gamma).1 ∨
        (cubeHelixRaw n i hue rot saturation gamma).2.1 < 0 ∨
        1 < (cubeHelixRaw n i hue rot saturation gamma).2.1 ∨
        (cubeHelixRaw n i hue rot saturation gamma).2.2 < 0 ∨
        1 < (cubeHelixRaw n i hue rot saturation gamma).2.2)) ∧
    (∀ i, (cubeHelixEntry n i hue rot saturation gamma).1 =
      (clamp (cubeHelixRaw n i hue rot saturation gamma).1 0 1,
       clamp (cubeHelixRaw n i hue rot saturation gamma).2.1 0 1,
       clamp (cubeHelixRaw n i hue rot saturation gamma).2.2 0 1)) := by
  refine ⟨cubeHelix_count n hue rot saturation gamma, fun i => ?_, fun i => ?_⟩
  · rw [cubeHelixEntry, cubeHelixEntryAt, cubeHelixRaw]
    simp only [Bool.or_eq_true, clampWithFlag_snd]
    tauto
  · rw [cubeHelixEntry, cubeHelixEntryAt, cubeHelixRaw]
    simp only [clampWithFlag_fst]

/- ------------------------------------------------------------------ -/
/- Claim C10.                                                         -/
/- ------------------------------------------------------------------ -/

theorem cubeHelixEntryAt_zero (hue rot saturation gamma : ℝ) (hg : gamma ≠ 0) :
    cubeHelixEntryAt hue rot saturation gamma 0 = ((0, 0, 0), false) := by
  rw [cubeHelixEntryAt, cubeHelixRawAt]
  simp only [Real.zero_rpow hg]
  norm_num [clampWithFlag]

theorem cubeHelixEntryAt_one (hue rot saturation gamma : ℝ) :
    cubeHelixEntryAt hue rot saturation gamma 1 = ((1, 1, 1), false) := by
  rw [cubeHelixEntryAt, cubeHelixRawAt]
  simp only [Real.one_rpow]
  norm_num [clampWithFlag]

/-- C10: for every `n ≥ 2`, any hue and rotations, saturation in `[0,1]`
and `gamma > 0`, the first CubeHelix entry is exactly the bytes `(0,0,0)`,
the last is exactly `(255,255,255)`, and neither endpoint color
contributes to the clip count. -/
theorem cubeHelix_endpoints (n : ℕ) (hn : 2 ≤ n) (hue rot saturation gamma : ℝ)
    (hs0 : 0 ≤ saturation) (hs1 : saturation ≤ 1) (hg : 0 < gamma) :
    (CubeHelix n hue rot saturation gamma).1.get? 0 = some (0, 0, 0) ∧
    (CubeHelix n hue rot saturation gamma).1.get? (n - 1) = some (255, 255, 255) ∧
    (cubeHelixEntry n 0 hue rot saturation gamma).2 = false ∧
    (cubeHelixEntry n (n - 1) hue rot saturation gamma).2 = false := by
  have hne : ((n : ℝ) - 1) ≠ 0 := by
    have : (2 : ℝ) ≤ (n : ℝ) := by exact_mod_cast hn
    linarith
  have hfrac0 : ((0 : ℕ) : ℝ) / ((n : ℝ) - 1) = 0 := by norm_num
  have hfrac1 : (((n - 1 : ℕ)) : ℝ) / ((n : ℝ) - 1) = 1 := by
    rw [Nat.cast_sub (by omega)]
    norm_num
    exact div_self hne
  have he0 : cubeHelixEntry n 0 hue rot saturation gamma = ((0, 0, 0), false) := by
    rw [cubeHelixEntry, hfrac0]
    exact cubeHelixEntryAt_zero hue rot saturation gamma hg.ne'
  have he1 : cubeHelixEntry n (n - 1) hue rot saturation gamma = ((1, 1, 1), false) := by
    rw [cubeHelixEntry, hfrac1]
    exact cubeHelixEntryAt_one hue rot saturation gamma
  refine ⟨?_, ?_, by rw [he0], by rw [he1]⟩
  · rw [cubeHelix_get n 0 (by omega) hue rot saturation gamma, he0]
    norm_num [cubeHelixBytes, cast_uchar]
  · rw [cubeHelix_get n (n - 1) (by omega) hue rot saturation gamma, he1]
    norm_num [cubeHelixBytes, cast_uchar]

theorem cubeHelix_endpoints_witness :
    ((2 : ℕ) ≤ 2 ∧ 0 ≤ (0 : ℝ) ∧ (0 : ℝ) ≤ 1 ∧ (0 : ℝ) < 1) ∧
    ((CubeHelix 2 0 0 0 1).1.get? 0 = some (0, 0, 0) ∧
     (CubeHelix 2 0 0 0 1).1.get? (2 - 1) = some (255, 255, 255) ∧
     (cubeHelixEntry 2 0 0 0 0 1).2 = false ∧
     (cubeHelixEntry 2 (2 - 1) 0 0 0 1).2 = false) :=
  ⟨⟨le_refl 2, le_refl 0, by norm_num, by norm_num⟩,
    cubeHelix_endpoints 2 (le_refl 2) 0 0 0 1 (le_refl 0) (by norm_num) (by norm_num)⟩

/- ------------------------------------------------------------------ -/
/- Claim C3.                                                          -/
/- ------------------------------------------------------------------ -/

/-- C3 (counterexample): the claim computes the amplitude from the raw
`fract = i/(n-1)`, i.e. `saturation * fract * (1-fract) / 2`.  At
`n = 3, i = 1, hue = 0, rotations = 0, saturation = 1, gamma = 2` the blue
channel produced by the code differs from the claimed
`fract^gamma + saturation*fract*(1-fract)/2 * (1.97294 * cos angle)`:
the code's amplitude uses the gamma-warped `fract^gamma` instead. -/
theorem cubeHelix_channel_formula_counterexample :
    (cubeHelixRaw 3 1 0 0 1 2).2.2 ≠
      ((1 : ℝ) / 2) ^ (2 : ℝ) +
        1 * ((1 : ℝ) / 2) * (1 - 1 / 2) / 2 *
          (1.97294 * Real.cos (twopi * (0 / 3 + 1 + 0 * (1 / 2)))) := by
  have hfrac : ((1 : ℕ) : ℝ) / ((3 : ℕ) - 1 : ℝ) = 1 / 2 := by norm_num
  have hpow : ((1 : ℝ) / 2) ^ (2 : ℝ) = 1 / 4 := by
    rw [show (2 : ℝ) = ((2 : ℕ) : ℝ) by norm_num, Real.rpow_natCast]
    norm_num
  have hangle : twopi * (0 / 3 + 1 + 0 * ((1 : ℝ) / 2)) = 2 * π := by
    rw [twopi]; ring
  have hcos : Real.cos (twopi * (0 / 3 + 1 + 0 * ((1 : ℝ) / 2))) = 1 := by
    rw [hangle, Real.cos_two_pi]
  rw [cubeHelixRaw, cubeHelixRawAt]
  simp only [Nat.cast_ofNat, Nat.cast_one]
  rw [show ((1 : ℝ)) / ((3 : ℝ) - 1) = 1 / 2 by norm_num]
  rw [show twopi * (0 / 3 + 1 + 0 * ((1 : ℝ) / 2)) = 2 * π by rw [twopi]; ring]
  rw [Real.cos_two_pi, hpow]
  norm_num

/-- C3 (amended): for every `n ≥ 2` and index `i < n`, with
`fract = i/(n-1)`, the `i`-th CubeHelix output entry is the byte conversion
of the channel-wise clamp to `[0,1]` of
`fract^gamma + amp * basis(angle)`, where the helical angle is
`2π*(hue/3 + 1 + rotations*fract)` (raw `fract`), the gray ramp is
`fract^gamma`, and the amplitude is
`saturation * fract^gamma * (1 - fract^gamma) / 2` — i.e. the amplitude is
computed from the gamma-warped `fract^gamma`, not from the raw `fract` as
the original claim stated. -/
theorem cubeHelix_channel_formula (n i : ℕ) (hn : 2 ≤ n) (hi : i < n)
    (hue rot saturation gamma : ℝ) :
    (CubeHelix n hue rot saturation gamma).1.get? i =
      some (cubeHelixBytes
        (clamp ((((i : ℝ) / ((n : ℝ) - 1)) ^ gamma) +
          saturation * (((i : ℝ) / ((n : ℝ) - 1)) ^ gamma) *
            (1 - ((i : ℝ) / ((n : ℝ) - 1)) ^ gamma) / 2 *
          (-0.14861 * Real.cos (twopi * (hue / 3 + 1 + rot * ((i : ℝ) / ((n : ℝ) - 1)))) +
            1.78277 * Real.sin (twopi * (hue / 3 + 1 + rot * ((i : ℝ) / ((n : ℝ) - 1)))))) 0 1,
         clamp ((((i : ℝ) / ((n : ℝ) - 1)) ^ gamma) +
          saturation * (((i : ℝ) / ((n : ℝ) - 1)) ^ gamma) *
            (1 - ((i : ℝ) / ((n : ℝ) - 1)) ^ gamma) / 2 *
          (-0.29227 * Real.cos (twopi * (hue / 3 + 1 + rot * ((i : ℝ) / ((n : ℝ) - 1)))) -
            0.90649 * Real.sin (twopi * (hue / 3 + 1 + rot * ((i : ℝ) / ((n : ℝ) - 1))))) ) 0 1,
         clamp ((((i : ℝ) / ((n : ℝ) - 1)) ^ gamma) +
          saturation * (((i : ℝ) / ((n : ℝ) - 1)) ^ gamma) *
            (1 - ((i : ℝ) / ((n : ℝ) - 1)) ^ gamma) / 2 *
          (1.97294 * Real.cos (twopi * (hue / 3 + 1 + rot * ((i : ℝ) / ((n : ℝ) - 1)))))) 0 1)) := by
  rw [cubeHelix_get n i hi hue rot saturation gamma]
  congr 1
  rw [cubeHelixEntry, cubeHelixEntryAt, cubeHelixRawAt]
  simp only [clampWithFlag_fst]

theorem cubeHelix_channel_formula_witness :
    ((2 : ℕ) ≤ 2 ∧ (0 : ℕ) < 2) ∧
    (CubeHelix 2 0 0 1 1).1.get? 0 =
      some (cubeHelixBytes
        (clamp ((((0 : ℕ) : ℝ) / ((2 : ℝ) - 1)) ^ (1 : ℝ) +
          1 * ((((0 : ℕ) : ℝ) / ((2 : ℝ) - 1)) ^ (1 : ℝ)) *
            (1 - (((0 : ℕ) : ℝ) / ((2 : ℝ) - 1)) ^ (1 : ℝ)) / 2 *
          (-0.14861 * Real.cos (twopi * (0 / 3 + 1 + 0 * (((0 : ℕ) : ℝ) / ((2 : ℝ) - 1)))) +
            1.78277 * Real.sin (twopi * (0 / 3 + 1 + 0 * (((0 : ℕ) : ℝ) / ((2 : ℝ) - 1)))))) 0 1,
         clamp ((((0 : ℕ) : ℝ) / ((2 : ℝ) - 1)) ^ (1 : ℝ) +
          1 * ((((0 : ℕ) : ℝ) / ((2 : ℝ) - 1)) ^ (1 : ℝ)) *
            (1 - (((0 : ℕ) : ℝ) / ((2 : ℝ) - 1)) ^ (1 : ℝ)) / 2 *
          (-0.29227 * Real.cos (twopi * (0 / 3 + 1 + 0 * (((0 : ℕ) : ℝ) / ((2 : ℝ) - 1)))) -
            0.90649 * Real.sin (twopi * (0 / 3 + 1 + 0 * (((0 : ℕ) : ℝ) / ((2 : ℝ) - 1))))) ) 0 1,
         clamp ((((0 : ℕ) : ℝ) / ((2 : ℝ) - 1)) ^ (1 : ℝ) +
          1 * ((((0 : ℕ) : ℝ) / ((2 : ℝ) - 1)) ^ (1 : ℝ)) *
            (1 - (((0 : ℕ) : ℝ) / ((2 : ℝ) - 1)) ^ (1 : ℝ)) / 2 *
          (1.97294 * Real.cos (twopi * (0 / 3 + 1 + 0 * (((0 : ℕ) : ℝ) / ((2 : ℝ) - 1)))))) 0 1)) :=
  ⟨⟨le_refl 2, by norm_num⟩, cubeHelix_channel_formula 2 0 (le_refl 2) (by norm_num) 0 0 1 1⟩

/- ------------------------------------------------------------------ -/
/- Claim C8.                                                          -/
/- ------------------------------------------------------------------ -/

/-- C8: with `n = 2` no generator divides by zero (`n - 1 = 1`), and each
generator's output is exactly the two endpoint samples: `BrewerSequential`
returns the samples at `t = 1` and `t = 0` (in that order),
`BrewerDiverging` the two half-profiles' endpoint samples (each half folds
its end of the index range to `tt = 0`), `BrewerQualitative` the samples at
`t = 0` and `t = 1`, and CubeHelix the entries at `fract = 0` and
`fract = 1`. -/
theorem generators_n2_endpoints
    (hue divergence contrast saturation brightness warmth rot gamma : ℝ) :
    ((2 : ℝ) - 1 ≠ 0) ∧
    BrewerSequential 2 hue contrast saturation brightness warmth =
      [brewerSequentialSample hue contrast saturation brightness warmth 1,
       brewerSequentialSample hue contrast saturation brightness warmth 0] ∧
    BrewerDiverging 2 hue divergence contrast saturation brightness warmth =
      [brewerDivergingSample0 hue divergence contrast saturation brightness warmth 0,
       brewerDivergingSample1 hue divergence contrast saturation brightness warmth 0] ∧
    BrewerQualitative 2 hue divergence contrast saturation brightness =
      [brewerQualitativeSample hue divergence contrast saturation brightness 0,
       brewerQualitativeSample hue divergence contrast saturation brightness 1] ∧
    (CubeHelix 2 hue rot saturation gamma).1 =
      [cubeHelixBytes (cubeHelixEntryAt hue rot saturation gamma 0).1,
       cubeHelixBytes (cubeHelixEntryAt hue rot saturation gamma 1).1] := by
  refine ⟨by norm_num, ?_, ?_, ?_, ?_⟩
  · rw [BrewerSequential, show List.range 2 = [0, 1] from rfl]
    simp only [List.map_cons, List.map_nil]
    rw [brewerSequentialColor, brewerSequentialColor]
    norm_num
  · rw [BrewerDiverging, show List.range 2 = [0, 1] from rfl]
    simp only [List.map_cons, List.map_nil]
    rw [brewerDivergingColor, brewerDivergingColor]
    norm_num [brewerDivergingSample0, brewerDivergingSample1]
  · rw [BrewerQualitative, show List.range 2 = [0, 1] from rfl]
    simp only [List.map_cons, List.map_nil]
    rw [brewerQualitativeColor, brewerQualitativeColor]
    norm_num
  · show (((List.range 2).map fun i => cubeHelixEntry 2 i hue rot saturation gamma).map
      fun e => cubeHelixBytes e.1) = _
    rw [show List.range 2 = [0, 1] from rfl]
    simp only [List.map_cons, List.map_nil]
    rw [cubeHelixEntry, cubeHelixEntry]
    norm_num

/- ------------------------------------------------------------------ -/
/- Corner-color hue facts for the gamut solver.                       -/
/- ------------------------------------------------------------------ -/

theorem xyz_to_luv_l (x y z : ℝ) : (xyz_to_luv x y z).l = luv_l_of_y y := rfl

theorem xyz_to_luv_u (x y z : ℝ) :
    (xyz_to_luv x y z).u = 13 * luv_l_of_y y * (u_prime x y z - d65_u_prime) := rfl

theorem xyz_to_luv_v (x y z : ℝ) :
    (xyz_to_luv x y z).v = 13 * luv_l_of_y y * (v_prime x y z - d65_v_prime) := rfl

theorem srgb_to_lch_hue_def (a b c : ℝ) :
    srgb_to_lch_hue a b c = luv_to_lch_h (srgb_to_luv a b c).u (srgb_to_luv a b c).v := rfl

theorem luv_u_pos {x y z : ℝ} (hy : 0 < y) (hd : d65_u_prime < u_prime x y z) :
    0 < (xyz_to_luv x y z).u := by
  rw [xyz_to_luv_u]
  have hl := luv_l_of_y_pos hy
  have : 0 < u_prime x y z - d65_u_prime := by linarith
  positivity

theorem luv_u_neg {x y z : ℝ} (hy : 0 < y) (hd : u_prime x y z < d65_u_prime) :
    (xyz_to_luv x y z).u < 0 := by
  rw [xyz_to_luv_u]
  have hl := luv_l_of_y_pos hy
  have h2 : u_prime x y z - d65_u_prime < 0 := by linarith
  exact mul_neg_of_pos_of_neg (by positivity) h2

theorem luv_v_pos {x y z : ℝ} (hy : 0 < y) (hd : d65_v_prime < v_prime x y z) :
    0 < (xyz_to_luv x y z).v := by
  rw [xyz_to_luv_v]
  have hl := luv_l_of_y_pos hy
  have : 0 < v_prime x y z - d65_v_prime := by linarith
  positivity

theorem luv_v_neg {x y z : ℝ} (hy : 0 < y) (hd : v_prime x y z < d65_v_prime) :
    (xyz_to_luv x y z).v < 0 := by
  rw [xyz_to_luv_v]
  have hl := luv_l_of_y_pos hy
  have h2 : v_prime x y z - d65_v_prime < 0 := by linarith
  exact mul_neg_of_pos_of_neg (by positivity) h2

/-- The `13 * l` factor cancels in the `v/u` ratio of an `xyz_to_luv`
image, leaving a ratio of rational white-point offsets. -/
theorem luv_ratio {x y z : ℝ} (hy : 0 < y) :
    (xyz_to_luv x y z).v / (xyz_to_luv x y z).u =
    (v_prime x y z - d65_v_prime) / (u_prime x y z - d65_u_prime) := by
  rw [xyz_to_luv_u, xyz_to_luv_v]
  have hl := luv_l_of_y_pos hy
  have h13 : (13 : ℝ) * luv_l_of_y y ≠ 0 := by positivity
  rw [mul_div_mul_left _ _ h13]

/- Explicit XYZ coordinates of the six sRGB cube corner colors. -/

theorem srgb_corner_red : srgb_to_luv 1 0 0 = xyz_to_luv 41.24 21.26 1.93 := by
  simp only [srgb_to_luv, rgb_to_xyz, srgb_to_rgb_helper_one, srgb_to_rgb_helper_zero]
  congr 1 <;> norm_num

theorem srgb_corner_yellow : srgb_to_luv 1 1 0 = xyz_to_luv 77 92.78 13.85 := by
  simp only [srgb_to_luv, rgb_to_xyz, srgb_to_rgb_helper_one, srgb_to_rgb_helper_zero]
  congr 1 <;> norm_num

theorem srgb_corner_green : srgb_to_luv 0 1 0 = xyz_to_luv 35.76 71.52 11.92 := by
  simp only [srgb_to_luv, rgb_to_xyz, srgb_to_rgb_helper_one, srgb_to_rgb_helper_zero]
  congr 1 <;> norm_num

theorem srgb_corner_cyan : srgb_to_luv 0 1 1 = xyz_to_luv 53.81 78.74 106.97 := by
  simp only [srgb_to_luv, rgb_to_xyz, srgb_to_rgb_helper_one, srgb_to_rgb_helper_zero]
  congr 1 <;> norm_num

theorem srgb_corner_blue : srgb_to_luv 0 0 1 = xyz_to_luv 18.05 7.22 95.05 := by
  simp only [srgb_to_luv, rgb_to_xyz, srgb_to_rgb_helper_one, srgb_to_rgb_helper_zero]
  congr 1 <;> norm_num

theorem srgb_corner_magenta : srgb_to_luv 1 0 1 = xyz_to_luv 59.29 28.48 96.98 := by
  simp only [srgb_to_luv, rgb_to_xyz, srgb_to_rgb_helper_one, srgb_to_rgb_helper_zero]
  congr 1 <;> norm_num

/- Quadrant facts for each corner hue. -/

theorem hueRed_facts : 0 < hueRed ∧ hueRed < π / 2 := by
  rw [hueRed, srgb_to_lch_hue_def, srgb_corner_red]
  have hu : 0 < (xyz_to_luv 41.24 21.26 1.93).u :=
    luv_u_pos (by norm_num) (by simp only [u_prime, d65_u_prime, d65_x, d65_y, d65_z]; norm_num)
  have hv : 0 < (xyz_to_luv 41.24 21.26 1.93).v :=
    luv_v_pos (by norm_num) (by simp only [v_prime, d65_v_prime, d65_x, d65_y, d65_z]; norm_num)
  obtain ⟨heq, h1, h2⟩ := lch_h_quadrant1 hu hv.le
  refine ⟨?_, h2⟩
  rw [heq]
  exact arctan_pos' (div_pos hv hu)

theorem hueYellow_facts : 0 ≤ hueYellow ∧ hueYellow < π / 2 := by
  rw [hueYellow, srgb_to_lch_hue_def, srgb_corner_yellow]
  have hu : 0 < (xyz_to_luv 77 92.78 13.85).u :=
    luv_u_pos (by norm_num) (by simp only [u_prime, d65_u_prime, d65_x, d65_y, d65_z]; norm_num)
  have hv : 0 < (xyz_to_luv 77 92.78 13.85).v :=
    luv_v_pos (by norm_num) (by simp only [v_prime, d65_v_prime, d65_x, d65_y, d65_z]; norm_num)
  obtain ⟨heq, h1, h2⟩ := lch_h_quadrant1 hu hv.le
  exact ⟨h1, h2⟩

theorem hueGreen_facts : π / 2 < hueGreen ∧ hueGreen ≤ π := by
  rw [hueGreen, srgb_to_lch_hue_def, srgb_corner_green]
  have hu : (xyz_to_luv 35.76 71.52 11.92).u < 0 :=
    luv_u_neg (by norm_num) (by simp only [u_prime, d65_u_prime, d65_x, d65_y, d65_z]; norm_num)
  have hv : 0 < (xyz_to_luv 35.76 71.52 11.92).v :=
    luv_v_pos (by norm_num) (by simp only [v_prime, d65_v_prime, d65_x, d65_y, d65_z]; norm_num)
  obtain ⟨heq, h1, h2⟩ := lch_h_quadrant2 hu hv.le
  exact ⟨h1, h2⟩

theorem hueCyan_facts : π < hueCyan ∧ hueCyan ≤ 3.37 := by
  rw [hueCyan, srgb_to_lch_hue_def, srgb_corner_cyan]
  have hy : (0 : ℝ) < 78.74 := by norm_num
  have hu : (xyz_to_luv 53.81 78.74 106.97).u < 0 :=
    luv_u_neg hy (by simp only [u_prime, d65_u_prime, d65_x, d65_y, d65_z]; norm_num)
  have hv : (xyz_to_luv 53.81 78.74 106.97).v < 0 :=
    luv_v_neg hy (by simp only [v_prime, d65_v_prime, d65_x, d65_y, d65_z]; norm_num)
  obtain ⟨heq, h1, h2⟩ := lch_h_quadrant3 hu hv
  refine ⟨h1, ?_⟩
  rw [heq]
  have hr : (xyz_to_luv 53.81 78.74 106.97).v / (xyz_to_luv 53.81 78.74 106.97).u =
      (v_prime 53.81 78.74 106.97 - d65_v_prime) / (u_prime 53.81 78.74 106.97 - d65_u_prime) :=
    luv_ratio hy
  have hratnn : 0 ≤ (xyz_to_luv 53.81 78.74 106.97).v / (xyz_to_luv 53.81 78.74 106.97).u :=
    le_of_lt (div_pos_iff.mpr (Or.inr ⟨hv, hu⟩))
  have hrat : (xyz_to_luv 53.81 78.74 106.97).v / (xyz_to_luv 53.81 78.74 106.97).u ≤ 0.216 := by
    rw [hr]; simp only [u_prime, v_prime, d65_u_prime, d65_v_prime, d65_x, d65_y, d65_z]
    norm_num
  have := arctan_le_self hratnn
  have hpi := Real.pi_lt_315
  linarith

theorem hueBlue_facts : 4 < hueBlue ∧ hueBlue < 3 * π / 2 := by
  rw [hueBlue, srgb_to_lch_hue_def, srgb_corner_blue]
  have hy : (0 : ℝ) < 7.22 := by norm_num
  have hu : (xyz_to_luv 18.05 7.22 95.05).u < 0 :=
    luv_u_neg hy (by simp only [u_prime, d65_u_prime, d65_x, d65_y, d65_z]; norm_num)
  have hv : (xyz_to_luv 18.05 7.22 95.05).v < 0 :=
    luv_v_neg hy (by simp only [v_prime, d65_v_prime, d65_x, d65_y, d65_z]; norm_num)
  obtain ⟨heq, h1, h2⟩ := lch_h_quadrant3 hu hv
  refine ⟨?_, h2⟩
  rw [heq]
  have hr : (xyz_to_luv 18.05 7.22 95.05).v / (xyz_to_luv 18.05 7.22 95.05).u =
      (v_prime 18.05 7.22 95.05 - d65_v_prime) / (u_prime 18.05 7.22 95.05 - d65_u_prime) :=
    luv_ratio hy
  have hsqrt3 : Real.sqrt 3 ≤ 2 := by
    rw [show (2 : ℝ) = Real.sqrt 4 by rw [show (4 : ℝ) = 2 ^ 2 by norm_num, Real.sqrt_sq]; norm_num]
    exact Real.sqrt_le_sqrt (by norm_num)
  have hrat : (2 : ℝ) ≤ (xyz_to_luv 18.05 7.22 95.05).v / (xyz_to_luv 18.05 7.22 95.05).u := by
    rw [hr]; simp only [u_prime, v_prime, d65_u_prime, d65_v_prime, d65_x, d65_y, d65_z]
    norm_num
  have harc : π / 3 ≤ arctan ((xyz_to_luv 18.05 7.22 95.05).v / (xyz_to_luv 18.05 7.22 95.05).u) :=
    arctan_ge_pi_div_three (by linarith)
  have hpi := Real.pi_gt_three
  linarith

theorem hueMagenta_facts : 3 * π / 2 < hueMagenta ∧ hueMagenta < twopi := by
  rw [hueMagenta, srgb_to_lch_hue_def, srgb_corner_magenta]
  have hy : (0 : ℝ) < 28.48 := by norm_num
  have hu : 0 < (xyz_to_luv 59.29 28.48 96.98).u :=
    luv_u_pos hy (by simp only [u_prime, d65_u_prime, d65_x, d65_y, d65_z]; norm_num)
  have hv : (xyz_to_luv 59.29 28.48 96.98).v < 0 :=
    luv_v_neg hy (by simp only [v_prime, d65_v_prime, d65_x, d65_y, d65_z]; norm_num)
  obtain ⟨heq, h1, h2⟩ := lch_h_quadrant4 hu hv
  exact ⟨h1, h2⟩

theorem hue_lt_twopi (a b c : ℝ) : srgb_to_lch_hue a b c < twopi := by
  rw [srgb_to_lch_hue_def]
  exact lch_h_mem.2

/- ------------------------------------------------------------------ -/
/- Claim C2.                                                          -/
/- ------------------------------------------------------------------ -/

theorem sector_solve_periodic (h Xi Yi Zi Xk Yk Zk : ℝ) :
    sector_solve (h + twopi) Xi Yi Zi Xk Yk Zk = sector_solve h Xi Yi Zi Xk Yk Zk := by
  simp only [sector_solve, twopi, Real.sin_add_two_pi, Real.cos_add_two_pi]

theorem hueRed_lt_twopi : hueRed < twopi := by rw [hueRed]; exact hue_lt_twopi 1 0 0
theorem hueYellow_lt_twopi : hueYellow < twopi := by rw [hueYellow]; exact hue_lt_twopi 1 1 0
theorem hueGreen_lt_twopi : hueGreen < twopi := by rw [hueGreen]; exact hue_lt_twopi 0 1 0
theorem hueCyan_lt_twopi : hueCyan < twopi := by rw [hueCyan]; exact hue_lt_twopi 0 1 1
theorem hueBlue_lt_twopi : hueBlue < twopi := by rw [hueBlue]; exact hue_lt_twopi 0 0 1
theorem hueMagenta_lt_twopi : hueMagenta < twopi := by
  rw [hueMagenta]; exact hue_lt_twopi 1 0 1

/-- Any hue of the form `h + 2π` with `h ≥ 0` falls through every sector
comparison of the solver into the final else branch. -/
theorem most_saturated_srgb_triple_ge_twopi {h : ℝ} (h0 : 0 ≤ h) :
    most_saturated_srgb_triple (h + twopi) =
      (1, 0, sector_solve (h + twopi) 0.1805 0.0722 0.9505 0.4124 0.2126 0.0193) := by
  have c1 : ¬(h + twopi < hueRed) := by push_neg; linarith [hueRed_lt_twopi]
  have c2 : ¬(h + twopi < hueYellow) := by push_neg; linarith [hueYellow_lt_twopi]
  have c3 : ¬(h + twopi < hueGreen) := by push_neg; linarith [hueGreen_lt_twopi]
  have c4 : ¬(h + twopi < hueCyan) := by push_neg; linarith [hueCyan_lt_twopi]
  have c5 : ¬(h + twopi < hueBlue) := by push_neg; linarith [hueBlue_lt_twopi]
  have c6 : ¬(h + twopi < hueMagenta) := by push_neg; linarith [hueMagenta_lt_twopi]
  rw [most_saturated_srgb_triple, if_neg c1, if_neg c2, if_neg c3, if_neg c4,
    if_neg c5, if_neg c6]

/-- At hue `4` the solver lands in the cyan-to-blue sector
(`r = 0`, `b = 1`, solve `g`). -/
theorem most_saturated_srgb_triple_at_4 :
    most_saturated_srgb_triple 4 =
      (0, sector_solve 4 0.3576 0.7152 0.1192 0.1805 0.0722 0.9505, 1) := by
  have hpi := Real.pi_lt_315
  have c1 : ¬(4 : ℝ) < hueRed := by push_neg; linarith [hueRed_facts.2]
  have c2 : ¬(4 : ℝ) < hueYellow := by push_neg; linarith [hueYellow_facts.2]
  have c3 : ¬(4 : ℝ) < hueGreen := by push_neg; linarith [hueGreen_facts.2]
  have c4 : ¬(4 : ℝ) < hueCyan := by push_neg; linarith [hueCyan_facts.2]
  have c5 : (4 : ℝ) < hueBlue := hueBlue_facts.1
  rw [most_saturated_srgb_triple, if_neg c1, if_neg c2, if_neg c3, if_neg c4, if_pos c5]

/-- The LUV image of a `(0, g, 1)` sRGB triple (the cyan-to-blue gamut
edge). -/
theorem srgb_to_luv_edge_gb (g : ℝ) :
    srgb_to_luv 0 g 1 =
      xyz_to_luv ((0.3576 * srgb_to_rgb_helper g + 0.1805) * 100)
        ((0.7152 * srgb_to_rgb_helper g + 0.0722) * 100)
        ((0.1192 * srgb_to_rgb_helper g + 0.9505) * 100) := by
  simp only [srgb_to_luv, rgb_to_xyz, srgb_to_rgb_helper_zero, srgb_to_rgb_helper_one]
  congr 1 <;> ring

/-- The LUV image of a `(1, 0, b)` sRGB triple (the magenta-to-red gamut
edge). -/
theorem srgb_to_luv_edge_rb (b : ℝ) :
    srgb_to_luv 1 0 b =
      xyz_to_luv ((0.4124 + 0.1805 * srgb_to_rgb_helper b) * 100)
        ((0.2126 + 0.0722 * srgb_to_rgb_helper b) * 100)
        ((0.0193 + 0.9505 * srgb_to_rgb_helper b) * 100) := by
  simp only [srgb_to_luv, rgb_to_xyz, srgb_to_rgb_helper_zero, srgb_to_rgb_helper_one]
  congr 1 <;> ring

theorem u_prime_edge_gb_lt {γ : ℝ} (h0 : 0 ≤ γ) :
    u_prime ((0.3576 * γ + 0.1805) * 100) ((0.7152 * γ + 0.0722) * 100)
      ((0.1192 * γ + 0.9505) * 100) < d65_u_prime := by
  simp only [u_prime, d65_u_prime, d65_x, d65_y, d65_z]
  rw [div_lt_div_iff (by nlinarith) (by norm_num)]
  nlinarith

theorem u_prime_edge_rb_gt {β : ℝ} (h0 : 0 ≤ β) (h1 : β ≤ 1) :
    d65_u_prime <
      u_prime ((0.4124 + 0.1805 * β) * 100) ((0.2126 + 0.0722 * β) * 100)
        ((0.0193 + 0.9505 * β) * 100) := by
  simp only [u_prime, d65_u_prime, d65_x, d65_y, d65_z]
  rw [div_lt_div_iff (by norm_num) (by nlinarith)]
  nlinarith

/-- C2 (counterexample): `most_saturated_in_srgb` is not 2π-periodic.  At
hue `4` the solver fixes `r = 0, b = 1`, giving a color with negative LUV
`u`; at `4 + 2π` every sector comparison fails and the final else branch
fixes `r = 1, g = 0`, giving a color with positive LUV `u`. -/
theorem most_saturated_not_periodic :
    most_saturated_in_srgb 4 ≠ most_saturated_in_srgb (4 + twopi) := by
  have hneg : (most_saturated_in_srgb 4).u < 0 := by
    rw [most_saturated_in_srgb, most_saturated_srgb_triple_at_4]
    set g := sector_solve 4 0.3576 0.7152 0.1192 0.1805 0.0722 0.9505 with hg
    have hg0 : 0 ≤ g := sector_solve_nonneg _ _ _ _ _ _ _
    have hγ0 : 0 ≤ srgb_to_rgb_helper g := srgb_to_rgb_helper_nonneg hg0
    rw [srgb_to_luv_edge_gb]
    exact luv_u_neg (by nlinarith) (u_prime_edge_gb_lt hγ0)
  have hpos : 0 < (most_saturated_in_srgb (4 + twopi)).u := by
    rw [most_saturated_in_srgb, most_saturated_srgb_triple_ge_twopi (by norm_num : (0:ℝ) ≤ 4)]
    set b := sector_solve (4 + twopi) 0.1805 0.0722 0.9505 0.4124 0.2126 0.0193 with hb
    have hb0 : 0 ≤ b := sector_solve_nonneg _ _ _ _ _ _ _
    have hb1 : b ≤ 1 := sector_solve_le_one _ _ _ _ _ _ _
    have hβ0 : 0 ≤ srgb_to_rgb_helper b := srgb_to_rgb_helper_nonneg hb0
    have hβ1 : srgb_to_rgb_helper b ≤ 1 := srgb_to_rgb_helper_le_one hb1
    rw [srgb_to_luv_edge_rb]
    exact luv_u_pos (by nlinarith) (u_prime_edge_rb_gt hβ0 hβ1)
  intro heq
  rw [heq] at hneg
  linarith

/-- C2 (amended): the wrap identity
`most_saturated_in_srgb h = most_saturated_in_srgb (h + 2π)` holds exactly
on the hue ranges where both calls resolve to the same sector assignment:
`0 ≤ h < hueRed` (below the red corner) or `hueMagenta ≤ h` (at or above
the magenta corner), where both sides use the final `(r=1, g=0)` sector;
for hues in between, `h + 2π` falls through to the final sector while `h`
does not, and the identity fails (see the counterexample). -/
theorem most_saturated_hue_wrap (h : ℝ) (h0 : 0 ≤ h)
    (hcase : h < hueRed ∨ hueMagenta ≤ h) :
    most_saturated_in_srgb h = most_saturated_in_srgb (h + twopi) := by
  have htriple : most_saturated_srgb_triple h =
      (1, 0, sector_solve h 0.1805 0.0722 0.9505 0.4124 0.2126 0.0193) := by
    rcases hcase with hlt | hge
    · rw [most_saturated_srgb_triple, if_pos hlt]
    · have hpi := pi_pos
      have o1 : hueRed < hueMagenta := by
        linarith [hueRed_facts.2, hueMagenta_facts.1]
      have o2 : hueYellow < hueMagenta := by
        linarith [hueYellow_facts.2, hueMagenta_facts.1]
      have o3 : hueGreen < hueMagenta := by
        linarith [hueGreen_facts.2, hueMagenta_facts.1]
      have o4 : hueCyan < hueMagenta := by
        have := hueCyan_facts.2
        have := hueMagenta_facts.1
        have := Real.pi_gt_three
        linarith
      have o5 : hueBlue < hueMagenta := by
        linarith [hueBlue_facts.2, hueMagenta_facts.1]
      rw [most_saturated_srgb_triple, if_neg (by push_neg; linarith),
        if_neg (by push_neg; linarith), if_neg (by push_neg; linarith),
        if_neg (by push_neg; linarith), if_neg (by push_neg; linarith),
        if_neg (by push_neg; linarith)]
  rw [most_saturated_in_srgb, most_saturated_in_srgb, htriple,
    most_saturated_srgb_triple_ge_twopi h0, sector_solve_periodic]

theorem most_saturated_hue_wrap_witness :
    (0 ≤ (0 : ℝ) ∧ ((0 : ℝ) < hueRed ∨ hueMagenta ≤ 0)) ∧
      most_saturated_in_srgb 0 = most_saturated_in_srgb (0 + twopi) :=
  ⟨⟨le_refl 0, Or.inl hueRed_facts.1⟩,
    most_saturated_hue_wrap 0 (le_refl 0) (Or.inl hueRed_facts.1)⟩

/- ------------------------------------------------------------------ -/
/- Bounds on the gamut solver's lightness, and nonnegativity of Smax. -/
/- ------------------------------------------------------------------ -/

theorem srgb_to_luv_l (a b c : ℝ) :
    (srgb_to_luv a b c).l = luv_l_of_y
      ((0.2126 * srgb_to_rgb_helper a + 0.7152 * srgb_to_rgb_helper b +
        0.0722 * srgb_to_rgb_helper c) * 100) := rfl

/-- The gamut boundary color's lightness is positive (one sRGB channel is
fixed to `1`) and at most the bright point's (one channel is fixed to `0`,
so `Y` is at most yellow's `92.78`). -/
theorem most_saturated_l_bounds (hue : ℝ) :
    0 < (most_saturated_in_srgb hue).l ∧
      (most_saturated_in_srgb hue).l ≤ bright_point.l := by
  rw [most_saturated_in_srgb, bright_point_l_eq, most_saturated_srgb_triple]
  split_ifs
  case _ =>
    have h0 := srgb_to_rgb_helper_nonneg
      (sector_solve_nonneg hue 0.1805 0.0722 0.9505 0.4124 0.2126 0.0193)
    have h1 := srgb_to_rgb_helper_le_one
      (sector_solve_le_one hue 0.1805 0.0722 0.9505 0.4124 0.2126 0.0193)
    simp only [srgb_to_luv_l, srgb_to_rgb_helper_one, srgb_to_rgb_helper_zero]
    exact ⟨luv_l_of_y_pos (by nlinarith), luv_l_of_y_mono (by nlinarith) (by nlinarith)⟩
  case _ =>
    have h0 := srgb_to_rgb_helper_nonneg
      (sector_solve_nonneg hue 0.3576 0.7152 0.1192 0.4124 0.2126 0.0193)
    have h1 := srgb_to_rgb_helper_le_one
      (sector_solve_le_one hue 0.3576 0.7152 0.1192 0.4124 0.2126 0.0193)
    simp only [srgb_to_luv_l, srgb_to_rgb_helper_one, srgb_to_rgb_helper_zero]
    exact ⟨luv_l_of_y_pos (by nlinarith), luv_l_of_y_mono (by nlinarith) (by nlinarith)⟩
  case _ =>
    have h0 := srgb_to_rgb_helper_nonneg
      (sector_solve_nonneg hue 0.4124 0.2126 0.0193 0.3576 0.7152 0.1192)
    have h1 := srgb_to_rgb_helper_le_one
      (sector_solve_le_one hue 0.4124 0.2126 0.0193 0.3576 0.7152 0.1192)
    simp only [srgb_to_luv_l, srgb_to_rgb_helper_one, srgb_to_rgb_helper_zero]
    exact ⟨luv_l_of_y_pos (by nlinarith), luv_l_of_y_mono (by nlinarith) (by nlinarith)⟩
  case _ =>
    have h0 := srgb_to_rgb_helper_nonneg
      (sector_solve_nonneg hue 0.1805 0.0722 0.9505 0.3576 0.7152 0.1192)
    have h1 := srgb_to_rgb_helper_le_one
      (sector_solve_le_one hue 0.1805 0.0722 0.9505 0.3576 0.7152 0.1192)
    simp only [srgb_to_luv_l, srgb_to_rgb_helper_one, srgb_to_rgb_helper_zero]
    exact ⟨luv_l_of_y_pos (by nlinarith), luv_l_of_y_mono (by nlinarith) (by nlinarith)⟩
  case _ =>
    have h0 := srgb_to_rgb_helper_nonneg
      (sector_solve_nonneg hue 0.3576 0.7152 0.1192 0.1805 0.0722 0.9505)
    have h1 := srgb_to_rgb_helper_le_one
      (sector_solve_le_one hue 0.3576 0.7152 0.1192 0.1805 0.0722 0.9505)
    simp only [srgb_to_luv_l, srgb_to_rgb_helper_one, srgb_to_rgb_helper_zero]
    exact ⟨luv_l_of_y_pos (by nlinarith), luv_l_of_y_mono (by nlinarith) (by nlinarith)⟩
  case _ =>
    have h0 := srgb_to_rgb_helper_nonneg
      (sector_solve_nonneg hue 0.4124 0.2126 0.0193 0.1805 0.0722 0.9505)
    have h1 := srgb_to_rgb_helper_le_one
      (sector_solve_le_one hue 0.4124 0.2126 0.0193 0.1805 0.0722 0.9505)
    simp only [srgb_to_luv_l, srgb_to_rgb_helper_one, srgb_to_rgb_helper_zero]
    exact ⟨luv_l_of_y_pos (by nlinarith), luv_l_of_y_mono (by nlinarith) (by nlinarith)⟩
  case _ =>
    have h0 := srgb_to_rgb_helper_nonneg
      (sector_solve_nonneg hue 0.1805 0.0722 0.9505 0.4124 0.2126 0.0193)
    have h1 := srgb_to_rgb_helper_le_one
      (sector_solve_le_one hue 0.1805 0.0722 0.9505 0.4124 0.2126 0.0193)
    simp only [srgb_to_luv_l, srgb_to_rgb_helper_one, srgb_to_rgb_helper_zero]
    exact ⟨luv_l_of_y_pos (by nlinarith), luv_l_of_y_mono (by nlinarith) (by nlinarith)⟩

theorem luv_saturation_nonneg (l u v : ℝ) : 0 ≤ luv_saturation l u v := by
  rw [luv_saturation, lch_saturation]
  apply div_nonneg (Real.sqrt_nonneg _)
  have : (1e-8 : ℝ) ≤ max l 1e-8 := le_max_right _ _
  linarith

theorem luv_saturation_zero_uv (l : ℝ) : luv_saturation l 0 0 = 0 := by
  rw [luv_saturation, lch_saturation]
  norm_num

theorem Smax_nonneg {l h : ℝ} (h0 : 0 ≤ l) (h100 : l ≤ 100) : 0 ≤ Smax l h := by
  obtain ⟨hpos, hle⟩ := most_saturated_l_bounds h
  have hlt100 : (most_saturated_in_srgb h).l < 100 :=
    lt_of_le_of_lt hle bright_point_l_lt_100
  rw [Smax]
  simp only [luv_saturation_zero_uv]
  have hmids := luv_saturation_nonneg (most_saturated_in_srgb h).l
    (most_saturated_in_srgb h).u (most_saturated_in_srgb h).v
  split_ifs with hcmp
  · have halpha : 0 ≤ (100 - l) / (100 - (most_saturated_in_srgb h).l) :=
      div_nonneg (by linarith) (by linarith)
    nlinarith
  · have halpha : 0 ≤ (0 - l) / (0 - (most_saturated_in_srgb h).l) := by
      rw [zero_sub, zero_sub, neg_div_neg_eq]
      exact div_nonneg h0 hpos.le
    nlinarith

/- fmod, HueDiff and the chroma-as-hypotenuse identity. -/

theorem fmod_mem {a m : ℝ} (ha : 0 ≤ a) (hm : 0 < m) :
    0 ≤ fmod a m ∧ fmod a m < m := by
  rw [fmod, ctrunc, if_pos (by positivity : (0 : ℝ) ≤ a / m)]
  have hkey : a - m * (⌊a / m⌋ : ℝ) = m * Int.fract (a / m) := by
    rw [Int.fract]
    field_simp
  rw [hkey]
  constructor
  · exact mul_nonneg hm.le (Int.fract_nonneg _)
  · have := Int.fract_lt_one (a / m)
    nlinarith

theorem HueDiff_mem {h0 h1 : ℝ} (ha : 0 ≤ h0) (hb : h0 < twopi)
    (hc : 0 ≤ h1) (hd : h1 < twopi) :
    0 ≤ HueDiff h0 h1 ∧ HueDiff h0 h1 ≤ π := by
  rw [HueDiff, twopi] at *
  have habs : |h1 - h0| < 2 * π := abs_lt.mpr ⟨by linarith, by linarith⟩
  split_ifs with hlt
  · exact ⟨abs_nonneg _, hlt.le⟩
  · push_neg at hlt
    constructor <;> linarith

theorem hypot_ray (C hh : ℝ) :
    Real.sqrt ((C * Real.cos hh) ^ 2 + (C * Real.sin hh) ^ 2) = |C| := by
  have htrig := Real.sin_sq_add_cos_sq hh
  have : (C * Real.cos hh) ^ 2 + (C * Real.sin hh) ^ 2 = C ^ 2 := by nlinarith
  rw [this, Real.sqrt_sq_eq_abs]

theorem yellow_l_eq : yellow_l = bright_point.l := rfl

theorem yellow_h_lt_twopi : 0 ≤ yellow_h ∧ yellow_h < twopi := lch_h_mem

/- ------------------------------------------------------------------ -/
/- Claim C5.                                                          -/
/- ------------------------------------------------------------------ -/

theorem brewerQualitativeColor_eq (n i : ℕ)
    (hue divergence contrast saturation brightness : ℝ) :
    brewerQualitativeColor n i hue divergence contrast saturation brightness =
      ⟨qualitativeLightness n i hue divergence contrast brightness,
       lch_to_luv_u (lch_chroma (qualitativeLightness n i hue divergence contrast brightness)
         (min (Smax (qualitativeLightness n i hue divergence contrast brightness)
            (qualitativeHue n i hue divergence)) (saturation * red_s)))
         (qualitativeHue n i hue divergence),
       lch_to_luv_v (lch_chroma (qualitativeLightness n i hue divergence contrast brightness)
         (min (Smax (qualitativeLightness n i hue divergence contrast brightness)
            (qualitativeHue n i hue divergence)) (saturation * red_s)))
         (qualitativeHue n i hue divergence)⟩ := rfl

theorem qualitativeLightness_bounds (n i : ℕ)
    (hue divergence contrast brightness : ℝ) (hn : 2 ≤ n)
    (hhue : 0 ≤ hue) (hdiv : 0 ≤ divergence)
    (hc0 : 0 ≤ contrast) (hc1 : contrast ≤ 1)
    (hb0 : 0 ≤ brightness) (hb1 : brightness ≤ 1) :
    0 ≤ qualitativeLightness n i hue divergence contrast brightness ∧
      qualitativeLightness n i hue divergence contrast brightness ≤ 100 := by
  have hch : 0 ≤ qualitativeHue n i hue divergence ∧
      qualitativeHue n i hue divergence < twopi := by
    rw [qualitativeHue]
    apply fmod_mem _ (by rw [twopi]; positivity)
    have ht : (0 : ℝ) ≤ (i : ℝ) / ((n : ℝ) - 1) := by
      apply div_nonneg (Nat.cast_nonneg i)
      have : (2 : ℝ) ≤ (n : ℝ) := by exact_mod_cast hn
      linarith
    have htw : (0 : ℝ) < twopi := by rw [twopi]; positivity
    positivity
  have halpha : 0 ≤ HueDiff (qualitativeHue n i hue divergence) yellow_h / π ∧
      HueDiff (qualitativeHue n i hue divergence) yellow_h / π ≤ 1 := by
    obtain ⟨hd0, hd1⟩ := HueDiff_mem hch.1 hch.2 yellow_h_lt_twopi.1 yellow_h_lt_twopi.2
    have hpi := pi_pos
    constructor
    · positivity
    · rw [div_le_one hpi]
      exact hd1
  have hyl : 0 < yellow_l ∧ yellow_l < 100 := by
    rw [yellow_l_eq]
    exact ⟨bright_point_l_pos, bright_point_l_lt_100⟩
  rw [qualitativeLightness]
  set alpha := HueDiff (qualitativeHue n i hue divergence) yellow_h / π
  have hexp : (1 - alpha) * (brightness * yellow_l) +
      alpha * ((1 - contrast) * (brightness * yellow_l)) =
      (brightness * yellow_l) * (1 - alpha * contrast) := by ring
  have hbyl0 : 0 ≤ brightness * yellow_l := mul_nonneg hb0 hyl.1.le
  have hbyl1 : brightness * yellow_l ≤ yellow_l := by nlinarith [hyl.1]
  have hac0 : 0 ≤ alpha * contrast := mul_nonneg halpha.1 hc0
  have hac1 : alpha * contrast ≤ 1 := by nlinarith [halpha.1, halpha.2]
  rw [hexp]
  constructor
  · exact mul_nonneg hbyl0 (by linarith)
  · nlinarith [mul_nonneg hbyl0 hac0]

/-- C5: for every `n ≥ 2` and `i < n` (with parameters in their documented
ranges), the `i`-th `BrewerQualitative` entry has lightness
`qualitativeLightness` and its chroma (the Euclidean norm of `(u, v)`)
equals that lightness times `min (Smax lightness hue) (saturation * red_s)`
— the saturation applied is the minimum of `Smax` at the entry's lightness
and hue and `saturation` times red's reference saturation. -/
theorem qualitative_chroma_cap (n i : ℕ)
    (hue divergence contrast saturation brightness : ℝ) (hn : 2 ≤ n) (hi : i < n)
    (hhue : 0 ≤ hue) (hdiv : 0 ≤ divergence)
    (hc0 : 0 ≤ contrast) (hc1 : contrast ≤ 1) (hs0 : 0 ≤ saturation)
    (hb0 : 0 ≤ brightness) (hb1 : brightness ≤ 1) :
    (brewerQualitativeColor n i hue divergence contrast saturation brightness).l =
      qualitativeLightness n i hue divergence contrast brightness ∧
    Real.sqrt ((brewerQualitativeColor n i hue divergence contrast saturation brightness).u ^ 2 +
        (brewerQualitativeColor n i hue divergence contrast saturation brightness).v ^ 2) =
      qualitativeLightness n i hue divergence contrast brightness *
        min (Smax (qualitativeLightness n i hue divergence contrast brightness)
              (qualitativeHue n i hue divergence))
            (saturation * red_s) := by
  obtain ⟨hcl0, hcl1⟩ := qualitativeLightness_bounds n i hue divergence contrast brightness
    hn hhue hdiv hc0 hc1 hb0 hb1
  have hsmax : 0 ≤ Smax (qualitativeLightness n i hue divergence contrast brightness)
      (qualitativeHue n i hue divergence) := Smax_nonneg hcl0 hcl1
  have hrs : 0 ≤ red_s := by
    rw [red_s]
    exact luv_saturation_nonneg _ _ _
  have hmin : 0 ≤ min (Smax (qualitativeLightness n i hue divergence contrast brightness)
      (qualitativeHue n i hue divergence)) (saturation * red_s) :=
    le_min hsmax (mul_nonneg hs0 hrs)
  rw [brewerQualitativeColor_eq]
  refine ⟨rfl, ?_⟩
  simp only [lch_to_luv_u, lch_to_luv_v]
  rw [hypot_ray, lch_chroma, abs_of_nonneg (mul_nonneg hmin hcl0)]
  ring

theorem qualitative_chroma_cap_witness :
    ((2 : ℕ) ≤ 2 ∧ (0 : ℕ) < 2 ∧ 0 ≤ (0 : ℝ) ∧ (0 : ℝ) ≤ 1) ∧
    ((brewerQualitativeColor 2 0 0 0 0 0 0).l = qualitativeLightness 2 0 0 0 0 0 ∧
     Real.sqrt ((brewerQualitativeColor 2 0 0 0 0 0 0).u ^ 2 +
         (brewerQualitativeColor 2 0 0 0 0 0 0).v ^ 2) =
       qualitativeLightness 2 0 0 0 0 0 *
         min (Smax (qualitativeLightness 2 0 0 0 0 0) (qualitativeHue 2 0 0 0)) (0 * red_s)) :=
  ⟨⟨le_refl 2, by norm_num, le_refl 0, by norm_num⟩,
    qualitative_chroma_cap 2 0 0 0 0 0 0 (le_refl 2) (by norm_num) (le_refl 0)
      (le_refl 0) (le_refl 0) (by norm_num) (le_refl 0) (le_refl 0) (by norm_num)⟩

/- ------------------------------------------------------------------ -/
/- Quadratic Bezier inversion machinery (for Claim C7).               -/
/- ------------------------------------------------------------------ -/

theorem B_l (x y z : LUVColor) (t : ℝ) : (B x y z t).l = Blq x.l y.l z.l t := rfl

theorem Blq_zero (b0 b1 b2 : ℝ) : Blq b0 b1 b2 0 = b0 := by rw [Blq]; ring

theorem Blq_one (b0 b1 b2 : ℝ) : Blq b0 b1 b2 1 = b2 := by rw [Blq]; ring

theorem invB_zero_denom {b0 b1 b2 v : ℝ} (h : b0 - 2 * b1 + b2 = 0) :
    invB b0 b1 b2 v = 0 := by
  rw [invB, h, div_zero]

/-- Closed form of the Bezier lightness evaluated at the inverted
parameter: the square root disappears, leaving a monotone function of the
(clamped) discriminant. -/
theorem Blq_invB {b0 b1 b2 v : ℝ} (hD : b0 - 2 * b1 + b2 ≠ 0) :
    Blq b0 b1 b2 (invB b0 b1 b2 v) =
      b0 + (max (b1 * b1 - b0 * b2 + (b0 - 2 * b1 + b2) * v) 0 - (b1 - b0) ^ 2)
        / (b0 - 2 * b1 + b2) := by
  set S := Real.sqrt (max (b1 * b1 - b0 * b2 + (b0 - 2 * b1 + b2) * v) 0) with hSdef
  have hS2 : S ^ 2 = max (b1 * b1 - b0 * b2 + (b0 - 2 * b1 + b2) * v) 0 :=
    Real.sq_sqrt (le_max_right _ 0)
  have hinv : invB b0 b1 b2 v = (b0 - b1 + S) / (b0 - 2 * b1 + b2) := by rw [invB]
  set τ := (b0 - b1 + S) / (b0 - 2 * b1 + b2) with hτdef
  have hτD : (b0 - 2 * b1 + b2) * τ = b0 - b1 + S := by
    rw [hτdef, mul_div_cancel₀ _ hD]
  have expand : Blq b0 b1 b2 τ = b0 + τ * (2 * (b1 - b0) + (b0 - 2 * b1 + b2) * τ) := by
    rw [Blq]; ring
  have h3 : 2 * (b1 - b0) + (b0 - b1 + S) = S + (b1 - b0) := by ring
  have h4 : τ * (S + (b1 - b0)) = (S ^ 2 - (b1 - b0) ^ 2) / (b0 - 2 * b1 + b2) := by
    rw [hτdef, div_mul_eq_mul_div]
    congr 1
    ring
  rw [hinv, expand, hτD, h3, h4, hS2]

/-- `invB` at the top control value returns exactly `1`. -/
theorem invB_at_top {b0 b1 b2 : ℝ} (hD : b0 - 2 * b1 + b2 ≠ 0) (h12 : b1 ≤ b2) :
    invB b0 b1 b2 b2 = 1 := by
  have hdisc : b1 * b1 - b0 * b2 + (b0 - 2 * b1 + b2) * b2 = (b2 - b1) ^ 2 := by ring
  rw [invB, hdisc, max_eq_left (sq_nonneg _), Real.sqrt_sq (by linarith)]
  rw [show b0 - b1 + (b2 - b1) = b0 - 2 * b1 + b2 by ring, div_self hD]

theorem invB_le_one {b0 b1 b2 v : ℝ} (h01 : b0 ≤ b1) (h12 : b1 ≤ b2) (hv : v ≤ b2) :
    invB b0 b1 b2 v ≤ 1 := by
  rcases eq_or_ne (b0 - 2 * b1 + b2) 0 with hD | hD
  · rw [invB_zero_denom hD]; norm_num
  · rw [invB]
    set S := Real.sqrt (max (b1 * b1 - b0 * b2 + (b0 - 2 * b1 + b2) * v) 0) with hSdef
    have hS0 : 0 ≤ S := Real.sqrt_nonneg _
    rcases lt_or_gt_of_ne hD with hneg | hpos
    · rw [div_le_one_iff]
      right; right
      refine ⟨hneg, ?_⟩
      have hdisc : (b2 - b1) ^ 2 ≤ b1 * b1 - b0 * b2 + (b0 - 2 * b1 + b2) * v := by
        nlinarith
      have : b2 - b1 ≤ S := by
        rw [hSdef]
        calc b2 - b1 = Real.sqrt ((b2 - b1) ^ 2) := (Real.sqrt_sq (by linarith)).symm
          _ ≤ _ := Real.sqrt_le_sqrt (le_max_of_le_left hdisc)
      linarith
    · rw [div_le_one hpos]
      have hdisc : b1 * b1 - b0 * b2 + (b0 - 2 * b1 + b2) * v ≤ (b2 - b1) ^ 2 := by
        nlinarith
      have hmax : max (b1 * b1 - b0 * b2 + (b0 - 2 * b1 + b2) * v) 0 ≤ (b2 - b1) ^ 2 :=
        max_le hdisc (sq_nonneg _)
      have : S ≤ b2 - b1 := by
        rw [hSdef]
        calc Real.sqrt _ ≤ Real.sqrt ((b2 - b1) ^ 2) := Real.sqrt_le_sqrt hmax
          _ = b2 - b1 := Real.sqrt_sq (by linarith)
      linarith

theorem invB_nonneg {b0 b1 b2 v : ℝ} (h01 : b0 ≤ b1) (h12 : b1 ≤ b2) (hv : b0 ≤ v) :
    0 ≤ invB b0 b1 b2 v := by
  rcases eq_or_ne (b0 - 2 * b1 + b2) 0 with hD | hD
  · rw [invB_zero_denom hD]
  · rw [invB]
    set S := Real.sqrt (max (b1 * b1 - b0 * b2 + (b0 - 2 * b1 + b2) * v) 0) with hSdef
    have hS0 : 0 ≤ S := Real.sqrt_nonneg _
    rcases lt_or_gt_of_ne hD with hneg | hpos
    · apply div_nonneg_of_nonpos _ hneg.le
      have hdisc : b1 * b1 - b0 * b2 + (b0 - 2 * b1 + b2) * v ≤ (b1 - b0) ^ 2 := by
        nlinarith
      have hmax : max (b1 * b1 - b0 * b2 + (b0 - 2 * b1 + b2) * v) 0 ≤ (b1 - b0) ^ 2 :=
        max_le hdisc (sq_nonneg _)
      have : S ≤ b1 - b0 := by
        rw [hSdef]
        calc Real.sqrt _ ≤ Real.sqrt ((b1 - b0) ^ 2) := Real.sqrt_le_sqrt hmax
          _ = b1 - b0 := Real.sqrt_sq (by linarith)
      linarith
    · apply div_nonneg _ hpos.le
      have hdisc : (b1 - b0) ^ 2 ≤ b1 * b1 - b0 * b2 + (b0 - 2 * b1 + b2) * v := by
        nlinarith
      have : b1 - b0 ≤ S := by
        rw [hSdef]
        calc b1 - b0 = Real.sqrt ((b1 - b0) ^ 2) := (Real.sqrt_sq (by linarith)).symm
          _ ≤ _ := Real.sqrt_le_sqrt (le_max_of_le_left hdisc)
      linarith

/-- Monotonicity of the inverted-then-evaluated Bezier lightness in the
target value. -/
theorem Blq_invB_mono {b0 b1 b2 v1 v2 : ℝ} (h01 : b0 ≤ b1) (h12 : b1 ≤ b2)
    (hv : v1 ≤ v2) :
    Blq b0 b1 b2 (invB b0 b1 b2 v1) ≤ Blq b0 b1 b2 (invB b0 b1 b2 v2) := by
  rcases eq_or_ne (b0 - 2 * b1 + b2) 0 with hD | hD
  · rw [invB_zero_denom hD, invB_zero_denom hD]
  · rw [Blq_invB hD, Blq_invB hD]
    rcases lt_or_gt_of_ne hD with hneg | hpos
    · have hmax : max (b1 * b1 - b0 * b2 + (b0 - 2 * b1 + b2) * v2) 0 ≤
          max (b1 * b1 - b0 * b2 + (b0 - 2 * b1 + b2) * v1) 0 :=
        max_le_max (by nlinarith) (le_refl 0)
      have hdiv : (max (b1 * b1 - b0 * b2 + (b0 - 2 * b1 + b2) * v1) 0 - (b1 - b0) ^ 2)
            / (b0 - 2 * b1 + b2) ≤
          (max (b1 * b1 - b0 * b2 + (b0 - 2 * b1 + b2) * v2) 0 - (b1 - b0) ^ 2)
            / (b0 - 2 * b1 + b2) := by
        rw [div_le_div_right_of_neg hneg]
        linarith
      linarith
    · have hmax : max (b1 * b1 - b0 * b2 + (b0 - 2 * b1 + b2) * v1) 0 ≤
          max (b1 * b1 - b0 * b2 + (b0 - 2 * b1 + b2) * v2) 0 :=
        max_le_max (by nlinarith) (le_refl 0)
      have hdiv : (max (b1 * b1 - b0 * b2 + (b0 - 2 * b1 + b2) * v1) 0 - (b1 - b0) ^ 2)
            / (b0 - 2 * b1 + b2) ≤
          (max (b1 * b1 - b0 * b2 + (b0 - 2 * b1 + b2) * v2) 0 - (b1 - b0) ^ 2)
            / (b0 - 2 * b1 + b2) := by
        rw [div_le_div_right hpos]
        linarith
      linarith

theorem invB_at_bot {b0 b1 b2 : ℝ} (h01 : b0 ≤ b1) : invB b0 b1 b2 b0 = 0 := by
  rw [invB]
  rw [show b1 * b1 - b0 * b2 + (b0 - 2 * b1 + b2) * b0 = (b1 - b0) ^ 2 by ring]
  rw [max_eq_left (sq_nonneg _), Real.sqrt_sq (by linarith)]
  rw [show b0 - b1 + (b1 - b0) = 0 by ring, zero_div]

/-- The piecewise dispatch in `get_colormap_entry` reduces, for ordered
control lightnesses, to evaluating one of the two inverted Bezier
segments. -/
theorem entry_from_l_l (p0 p2 q0 q1 q2 : LUVColor)
    (h01 : p0.l ≤ q0.l) (h12 : q0.l ≤ q1.l) (h23 : q1.l ≤ q2.l) (h34 : q2.l ≤ p2.l)
    {v : ℝ} :
    (entry_from_l v p0 p2 q0 q1 q2).l =
      if v ≤ q1.l then Blq p0.l q0.l q1.l (invB p0.l q0.l q1.l v)
      else Blq q1.l q2.l p2.l (invB q1.l q2.l p2.l v) := by
  rw [entry_from_l]
  by_cases h1 : v ≤ q1.l
  · simp only [if_pos h1]
    have hτ1 : invB p0.l q0.l q1.l v ≤ 1 := invB_le_one h01 h12 h1
    rw [if_pos (by linarith : (0.5 : ℝ) * invB p0.l q0.l q1.l v ≤ 0.5), B_l]
    congr 1
    ring
  · simp only [if_neg h1]
    have hv2 : q1.l ≤ v := le_of_lt (not_le.mp h1)
    have hτnn : 0 ≤ invB q1.l q2.l p2.l v := invB_nonneg h23 h34 hv2
    by_cases h2 : invB q1.l q2.l p2.l v ≤ 0
    · have hτ0 : invB q1.l q2.l p2.l v = 0 := le_antisymm h2 hτnn
      rw [hτ0]
      rw [if_pos (by norm_num : (0.5 : ℝ) * 0 + 0.5 ≤ 0.5), B_l]
      rw [show (2 : ℝ) * (0.5 * 0 + 0.5) = 1 by norm_num, Blq_one, Blq_zero]
    · push_neg at h2
      rw [if_neg (by push_neg; linarith : ¬((0.5 : ℝ) * invB q1.l q2.l p2.l v + 0.5 ≤ 0.5)),
        B_l]
      congr 1
      ring

/-- Monotonicity of the sampled entry's lightness in the target lightness,
for ordered control lightnesses. -/
theorem entry_from_l_mono (p0 p2 q0 q1 q2 : LUVColor)
    (h01 : p0.l ≤ q0.l) (h12 : q0.l ≤ q1.l) (h23 : q1.l ≤ q2.l) (h34 : q2.l ≤ p2.l)
    {v1 v2 : ℝ} (hv : v1 ≤ v2) :
    (entry_from_l v1 p0 p2 q0 q1 q2).l ≤ (entry_from_l v2 p0 p2 q0 q1 q2).l := by
  rw [entry_from_l_l p0 p2 q0 q1 q2 h01 h12 h23 h34,
    entry_from_l_l p0 p2 q0 q1 q2 h01 h12 h23 h34]
  by_cases h1 : v1 ≤ q1.l <;> by_cases h2 : v2 ≤ q1.l
  · rw [if_pos h1, if_pos h2]
    exact Blq_invB_mono h01 h12 hv
  · rw [if_pos h1, if_neg h2]
    have hle : Blq p0.l q0.l q1.l (invB p0.l q0.l q1.l v1) ≤ q1.l := by
      rcases eq_or_ne (p0.l - 2 * q0.l + q1.l) 0 with hD | hD
      · rw [invB_zero_denom hD, Blq_zero]; linarith
      · calc Blq p0.l q0.l q1.l (invB p0.l q0.l q1.l v1)
            ≤ Blq p0.l q0.l q1.l (invB p0.l q0.l q1.l q1.l) := Blq_invB_mono h01 h12 h1
          _ = q1.l := by rw [invB_at_top hD h12, Blq_one]
    have hge : q1.l ≤ Blq q1.l q2.l p2.l (invB q1.l q2.l p2.l v2) := by
      have hv2 : q1.l ≤ v2 := le_of_lt (not_le.mp h2)
      calc q1.l = Blq q1.l q2.l p2.l (invB q1.l q2.l p2.l q1.l) := by
            rw [invB_at_bot h23, Blq_zero]
        _ ≤ Blq q1.l q2.l p2.l (invB q1.l q2.l p2.l v2) := Blq_invB_mono h23 h34 hv2
    linarith
  · exact absurd (le_trans hv h2) h1
  · rw [if_neg h1, if_neg h2]
    exact Blq_invB_mono h23 h34 hv

/- Control-point lightness facts for `get_color_points` with the bright
point and its derived hue/saturation. -/

theorem color_points_p0_l (hue saturation warmth : ℝ) :
    (get_color_points hue saturation warmth bright_point pbh pbs).p0.l = 0 := rfl

theorem color_points_q0_l (hue saturation warmth : ℝ) :
    (get_color_points hue saturation warmth bright_point pbh pbs).q0.l =
      (1 - saturation) * 0 + saturation * (most_saturated_in_srgb hue).l := rfl

theorem color_points_p2_l (hue saturation warmth : ℝ) :
    (get_color_points hue saturation warmth bright_point pbh pbs).p2.l =
      (1 - warmth) * 100 + warmth * bright_point.l := rfl

theorem color_points_q2_l (hue saturation warmth : ℝ) :
    (get_color_points hue saturation warmth bright_point pbh pbs).q2.l =
      (1 - saturation) * ((1 - warmth) * 100 + warmth * bright_point.l) +
        saturation * (most_saturated_in_srgb hue).l := rfl

theorem color_points_q1_l (hue saturation warmth : ℝ) :
    (get_color_points hue saturation warmth bright_point pbh pbs).q1.l =
      0.5 * ((get_color_points hue saturation warmth bright_point pbh pbs).q0.l +
        (get_color_points hue saturation warmth bright_point pbh pbs).q2.l) := rfl

theorem color_points_ordered (hue saturation warmth : ℝ)
    (hs0 : 0 ≤ saturation) (hs1 : saturation ≤ 1)
    (hw0 : 0 ≤ warmth) (hw1 : warmth ≤ 1) :
    (get_color_points hue saturation warmth bright_point pbh pbs).p0.l ≤
      (get_color_points hue saturation warmth bright_point pbh pbs).q0.l ∧
    (get_color_points hue saturation warmth bright_point pbh pbs).q0.l ≤
      (get_color_points hue saturation warmth bright_point pbh pbs).q1.l ∧
    (get_color_points hue saturation warmth bright_point pbh pbs).q1.l ≤
      (get_color_points hue saturation warmth bright_point pbh pbs).q2.l ∧
    (get_color_points hue saturation warmth bright_point pbh pbs).q2.l ≤
      (get_color_points hue saturation warmth bright_point pbh pbs).p2.l := by
  obtain ⟨hp1pos, hp1le⟩ := most_saturated_l_bounds hue
  have hpb0 := bright_point_l_pos
  have hpb1 := bright_point_l_lt_100
  rw [color_points_p0_l, color_points_q0_l, color_points_q1_l, color_points_q0_l,
    color_points_q2_l, color_points_p2_l]
  have hp2nn : 0 ≤ (1 - warmth) * 100 + warmth * bright_point.l := by nlinarith
  have hp1p2 : (most_saturated_in_srgb hue).l ≤ (1 - warmth) * 100 + warmth * bright_point.l := by
    nlinarith
  refine ⟨by nlinarith, by nlinarith, by nlinarith, by nlinarith⟩

/- Target lightness facts. -/

theorem target_l_mono {c b t1 t2 : ℝ} (hc0 : 0 ≤ c) (ht : t1 ≤ t2) :
    target_l c b t1 ≤ target_l c b t2 := by
  rw [target_l, target_l]
  have he : (1 - c) * b + t1 * c ≤ (1 - c) * b + t2 * c := by nlinarith
  have := Real.rpow_le_rpow_of_exponent_ge (by norm_num : (0 : ℝ) < 0.2)
    (by norm_num : (0.2 : ℝ) ≤ 1) he
  linarith

/- ------------------------------------------------------------------ -/
/- Claim C7.                                                          -/
/- ------------------------------------------------------------------ -/

/-- C7: for `n ≥ 2`, `contrast ∈ (0,1]`, `brightness = 1` and documented
parameter ranges, the lightness sequence of the entries generated by
`BrewerSequential` is monotonic (nonincreasing) in the index: entry `0` is
the lightest end. -/
theorem sequential_lightness_monotone (n : ℕ) (hn : 2 ≤ n)
    (hue contrast saturation brightness warmth : ℝ)
    (hc0 : 0 < contrast) (hc1 : contrast ≤ 1) (hb : brightness = 1)
    (hs0 : 0 ≤ saturation) (hs1 : saturation ≤ 1)
    (hw0 : 0 ≤ warmth) (hw1 : warmth ≤ 1)
    (i j : ℕ) (hij : i ≤ j) (ci cj : LUVColor)
    (hci : (BrewerSequential n hue contrast saturation brightness warmth).get? i = some ci)
    (hcj : (BrewerSequential n hue contrast saturation brightness warmth).get? j = some cj) :
    cj.l ≤ ci.l := by
  have hnr : (0 : ℝ) < (n : ℝ) - 1 := by
    have : (2 : ℝ) ≤ (n : ℝ) := by exact_mod_cast hn
    linarith
  have hleni : i < n := by
    have := List.get?_eq_some.mp hci
    simpa [BrewerSequential] using this.1
  have hlenj : j < n := by
    have := List.get?_eq_some.mp hcj
    simpa [BrewerSequential] using this.1
  have hci' : ci = brewerSequentialColor n i hue contrast saturation brightness warmth := by
    rw [BrewerSequential, List.get?_map, List.get?_range hleni] at hci
    exact (Option.some_inj.mp hci).symm
  have hcj' : cj = brewerSequentialColor n j hue contrast saturation brightness warmth := by
    rw [BrewerSequential, List.get?_map, List.get?_range hlenj] at hcj
    exact (Option.some_inj.mp hcj).symm
  subst hci' hcj' hb
  obtain ⟨o1, o2, o3, o4⟩ := color_points_ordered hue saturation warmth hs0 hs1 hw0 hw1
  have htj0 : (0 : ℝ) ≤ ((n - 1 - j : ℕ) : ℝ) / ((n : ℝ) - 1) :=
    div_nonneg (Nat.cast_nonneg _) hnr.le
  have htij : ((n - 1 - j : ℕ) : ℝ) / ((n : ℝ) - 1) ≤
      ((n - 1 - i : ℕ) : ℝ) / ((n : ℝ) - 1) := by
    apply (div_le_div_right hnr).mpr
    exact_mod_cast Nat.cast_le.mpr (Nat.sub_le_sub_left hij (n - 1))
  have hv := target_l_mono (b := (1 : ℝ)) hc0.le htij
  exact entry_from_l_mono _ _ _ _ _ o1 o2 o3 o4 hv

theorem sequential_lightness_monotone_witness :
    ((2 : ℕ) ≤ 2 ∧ (0 : ℝ) < 1 ∧ (0 : ℕ) ≤ 1) ∧
    (brewerSequentialColor 2 1 0 1 0 1 0).l ≤ (brewerSequentialColor 2 0 0 1 0 1 0).l := by
  have h0 : (BrewerSequential 2 0 1 0 1 0).get? 0 =
      some (brewerSequentialColor 2 0 0 1 0 1 0) := by
    rw [BrewerSequential, List.get?_map, List.get?_range (by norm_num)]
    rfl
  have h1 : (BrewerSequential 2 0 1 0 1 0).get? 1 =
      some (brewerSequentialColor 2 1 0 1 0 1 0) := by
    rw [BrewerSequential, List.get?_map, List.get?_range (by norm_num)]
    rfl
  exact ⟨⟨le_refl 2, one_pos, Nat.zero_le 1⟩,
    sequential_lightness_monotone 2 (le_refl 2) 0 1 0 1 0 one_pos (le_refl 1) rfl
      (le_refl 0) zero_le_one (le_refl 0) zero_le_one 0 1 (Nat.zero_le 1) _ _ h0 h1⟩

/- ------------------------------------------------------------------ -/
/- Claim C4: groundwork.                                              -/
/- ------------------------------------------------------------------ -/

theorem bright_point_eq : bright_point = xyz_to_luv 77 92.78 13.85 := by
  simp only [bright_point, rgb_to_xyz]
  congr 1 <;> norm_num

theorem bright_point_u_pos : 0 < bright_point.u := by
  rw [bright_point_eq]
  exact luv_u_pos (by norm_num)
    (by simp only [u_prime, d65_u_prime, d65_x, d65_y, d65_z]; norm_num)

theorem bright_point_v_pos : 0 < bright_point.v := by
  rw [bright_point_eq]
  exact luv_v_pos (by norm_num)
    (by simp only [v_prime, d65_v_prime, d65_x, d65_y, d65_z]; norm_num)

theorem pbh_mem : 0 ≤ pbh ∧ pbh < twopi := lch_h_mem

theorem pbs_nonneg : 0 ≤ pbs := by
  rw [pbs, lch_saturation]
  apply div_nonneg
  · rw [pbc, luv_to_lch_c]
    exact Real.sqrt_nonneg _
  · have : (1e-8 : ℝ) ≤ max bright_point.l 1e-8 := le_max_right _ _
    linarith

theorem pbs_pos : 0 < pbs := by
  rw [pbs, lch_saturation]
  apply div_pos
  · rw [pbc, luv_to_lch_c]
    apply Real.sqrt_pos.mpr
    have := bright_point_u_pos
    positivity
  · have : (1e-8 : ℝ) ≤ max bright_point.l 1e-8 := le_max_right _ _
    linarith

theorem fmod_eq_self {a m : ℝ} (h0 : 0 ≤ a) (h1 : a < m) : fmod a m = a := by
  have hm : 0 < m := lt_of_le_of_lt h0 h1
  rw [fmod, ctrunc, if_pos (div_nonneg h0 hm.le)]
  have hfloor : ⌊a / m⌋ = 0 := by
    apply Int.floor_eq_zero_iff.mpr
    constructor
    · exact div_nonneg h0 hm.le
    · rw [div_lt_one hm]; exact h1
  rw [hfloor]
  norm_num

theorem mix_hue_self (a h : ℝ) (h0 : 0 ≤ h) (h1 : h < twopi) : mix_hue a h h = h := by
  have hππ : fmod (π + h - h) twopi = π := by
    rw [show π + h - h = π by ring]
    exact fmod_eq_self pi_pos.le (by rw [twopi]; linarith [pi_pos])
  rw [mix_hue, hππ, show h + a * (π - π) = h by ring]
  exact fmod_eq_self h0 h1

theorem B_at_one (x y z : LUVColor) : B x y z 1 = z := by
  ext <;> simp [B, luvAdd, luvSmul]

/-- The common factor of the sector solve when the linear system degenerates
to the already-saturated corner: if `q0 = -q1` and `q1 > 0` the solved
channel is exactly `1`. -/
theorem clamp_solve {q0 q1 : ℝ} (hsum : q0 = -q1) (hpos : 0 < q1) :
    rgb_to_srgb_helper (clamp (-q0 / q1) 0 1) = 1 := by
  rw [hsum, neg_neg, div_self hpos.ne', clamp]
  rw [max_eq_left (by norm_num : (0 : ℝ) ≤ 1), min_self]
  exact rgb_to_srgb_helper_one

theorem hueRed_le_hueYellow : hueRed ≤ hueYellow := by
  rw [hueRed, hueYellow, srgb_to_lch_hue_def, srgb_to_lch_hue_def, srgb_corner_red,
    srgb_corner_yellow]
  have huR : 0 < (xyz_to_luv 41.24 21.26 1.93).u :=
    luv_u_pos (by norm_num)
      (by simp only [u_prime, d65_u_prime, d65_x, d65_y, d65_z]; norm_num)
  have hvR : 0 < (xyz_to_luv 41.24 21.26 1.93).v :=
    luv_v_pos (by norm_num)
      (by simp only [v_prime, d65_v_prime, d65_x, d65_y, d65_z]; norm_num)
  have huY : 0 < (xyz_to_luv 77 92.78 13.85).u :=
    luv_u_pos (by norm_num)
      (by simp only [u_prime, d65_u_prime, d65_x, d65_y, d65_z]; norm_num)
  have hvY : 0 < (xyz_to_luv 77 92.78 13.85).v :=
    luv_v_pos (by norm_num)
      (by simp only [v_prime, d65_v_prime, d65_x, d65_y, d65_z]; norm_num)
  rw [(lch_h_quadrant1 huR hvR.le).1, (lch_h_quadrant1 huY hvY.le).1]
  apply Real.arctan_strictMono.monotone
  rw [luv_ratio (by norm_num), luv_ratio (by norm_num)]
  simp only [u_prime, v_prime, d65_u_prime, d65_v_prime, d65_x, d65_y, d65_z]
  norm_num

theorem pbh_eq_hueYellow : pbh = hueYellow := by
  rw [pbh, hueYellow, srgb_to_lch_hue_def, srgb_corner_yellow, bright_point_eq]

/-- At the bright point's own hue, the gamut solver returns exactly the
bright point: the yellow corner is the most saturated color of its own
hue. -/
theorem most_saturated_at_pbh : most_saturated_in_srgb pbh = bright_point := by
  have hpi := pi_pos
  have hsec : most_saturated_srgb_triple pbh =
      (sector_solve pbh 0.4124 0.2126 0.0193 0.3576 0.7152 0.1192, 1, 0) := by
    have c1 : ¬(pbh < hueRed) := by
      push_neg
      rw [pbh_eq_hueYellow]
      exact hueRed_le_hueYellow
    have c2 : ¬(pbh < hueYellow) := by rw [pbh_eq_hueYellow]; exact lt_irrefl _
    have c3 : pbh < hueGreen := by
      rw [pbh_eq_hueYellow]
      linarith [hueYellow_facts.2, hueGreen_facts.1]
    rw [most_saturated_srgb_triple, if_neg c1, if_neg c2, if_pos c3]
  have hbu := bright_point_u_pos
  have hbv := bright_point_v_pos
  have hpbh_val : pbh = arctan (bright_point.v / bright_point.u) :=
    (lch_h_quadrant1 hbu hbv.le).1
  have hρval : bright_point.v / bright_point.u =
      (v_prime 77 92.78 13.85 - d65_v_prime) / (u_prime 77 92.78 13.85 - d65_u_prime) := by
    rw [bright_point_eq]
    exact luv_ratio (by norm_num)
  have hdu : 0 < u_prime 77 92.78 13.85 - d65_u_prime := by
    simp only [u_prime, d65_u_prime, d65_x, d65_y, d65_z]; norm_num
  have hdv : 0 < v_prime 77 92.78 13.85 - d65_v_prime := by
    simp only [v_prime, d65_v_prime, d65_x, d65_y, d65_z]; norm_num
  set du := u_prime 77 92.78 13.85 - d65_u_prime with hdu_def
  set dv := v_prime 77 92.78 13.85 - d65_v_prime with hdv_def
  set W := Real.sqrt (1 + (dv / du) ^ 2) with hW_def
  have hWpos : 0 < W := Real.sqrt_pos.mpr (by positivity)
  have hsin : Real.sin pbh = dv / du / W := by
    rw [hpbh_val, hρval, Real.sin_arctan]
  have hcos : Real.cos pbh = 1 / W := by
    rw [hpbh_val, hρval, Real.cos_arctan]
  have hcpos : 0 < Real.cos pbh := by rw [hcos]; positivity
  have hkey : Real.sin pbh * du = Real.cos pbh * dv := by
    rw [hsin, hcos]
    field_simp
    ring
  have hsin_eq : Real.sin pbh = Real.cos pbh * dv / du := by
    rw [eq_div_iff hdu.ne']
    exact hkey
  -- the red-corner offsets
  have hdur : 0 < u_prime 41.24 21.26 1.93 - d65_u_prime := by
    simp only [u_prime, d65_u_prime, d65_x, d65_y, d65_z]; norm_num
  have hdvr : 0 < v_prime 41.24 21.26 1.93 - d65_v_prime := by
    simp only [v_prime, d65_v_prime, d65_x, d65_y, d65_z]; norm_num
  set dur := u_prime 41.24 21.26 1.93 - d65_u_prime with hdur_def
  set dvr := v_prime 41.24 21.26 1.93 - d65_v_prime with hdvr_def
  -- rational identities tying the columns to the offsets
  have hA : d65_u_prime * (0.3576 + 15 * 0.7152 + 3 * 0.1192) +
      d65_u_prime * (0.4124 + 15 * 0.2126 + 3 * 0.0193) - 4 * 0.77 =
      -(15.1025 * du) := by
    rw [hdu_def]
    simp only [u_prime, d65_u_prime, d65_x, d65_y, d65_z]
    norm_num
  have hB : d65_v_prime * (0.3576 + 15 * 0.7152 + 3 * 0.1192) +
      d65_v_prime * (0.4124 + 15 * 0.2126 + 3 * 0.0193) - 9 * 0.9278 =
      -(15.1025 * dv) := by
    rw [hdv_def]
    simp only [v_prime, d65_v_prime, d65_x, d65_y, d65_z]
    norm_num
  have hAr : d65_u_prime * (0.4124 + 15 * 0.2126 + 3 * 0.0193) - 4 * 0.4124 =
      -(3.6593 * dur) := by
    rw [hdur_def]
    simp only [u_prime, d65_u_prime, d65_x, d65_y, d65_z]
    norm_num
  have hBr : d65_v_prime * (0.4124 + 15 * 0.2126 + 3 * 0.0193) - 9 * 0.2126 =
      -(3.6593 * dvr) := by
    rw [hdvr_def]
    simp only [v_prime, d65_v_prime, d65_x, d65_y, d65_z]
    norm_num
  have hrat : 0 < dv * dur - dvr * du := by
    rw [hdu_def, hdv_def, hdur_def, hdvr_def]
    simp only [u_prime, v_prime, d65_u_prime, d65_v_prime, d65_x, d65_y, d65_z]
    norm_num
  have hsolve : sector_solve pbh 0.4124 0.2126 0.0193 0.3576 0.7152 0.1192 = 1 := by
    simp only [sector_solve]
    apply clamp_solve
    · linear_combination (-(Real.sin pbh)) * hA + Real.cos pbh * hB + 15.1025 * hkey
    · have hq1eq : (-Real.sin pbh * d65_u_prime + Real.cos pbh * d65_v_prime) *
          (0.4124 + 15 * 0.2126 + 3 * 0.0193) -
          (4 * -Real.sin pbh * 0.4124 + 9 * Real.cos pbh * 0.2126) =
          3.6593 * (Real.sin pbh * dur - Real.cos pbh * dvr) := by
        linear_combination (-(Real.sin pbh)) * hAr + Real.cos pbh * hBr
      rw [hq1eq]
      have hdiff : Real.sin pbh * dur - Real.cos pbh * dvr =
          Real.cos pbh * (dv * dur - dvr * du) / du := by
        rw [hsin_eq]
        field_simp [hdu.ne']
        ring
      rw [hdiff]
      have : 0 < Real.cos pbh * (dv * dur - dvr * du) / du :=
        div_pos (mul_pos hcpos hrat) hdu
      linarith
  rw [most_saturated_in_srgb, hsec]
  show srgb_to_luv (sector_solve pbh 0.4124 0.2126 0.0193 0.3576 0.7152 0.1192) 1 0 =
    bright_point
  rw [hsolve, srgb_corner_yellow, bright_point_eq]

theorem c4P_bounds : 95 < c4P ∧ c4P < 100 := by
  have h0 := bright_point_l_gt_90
  have h1 := bright_point_l_lt_100
  rw [c4P]
  constructor <;> linarith

/-- Above the bright point's lightness, `Smax` at the bright point's hue is
the linear ramp from the bright point's saturation down to white. -/
theorem Smax_pbh_at {l : ℝ} (hl : bright_point.l < l) :
    Smax l pbh = (100 - l) / (100 - bright_point.l) * pbs := by
  simp only [Smax, most_saturated_at_pbh]
  rw [if_pos hl, luv_saturation_zero_uv]
  have hpmids : luv_saturation bright_point.l bright_point.u bright_point.v = pbs := rfl
  rw [hpmids]
  ring

theorem Smax_c4P : Smax c4P pbh = pbs / 2 := by
  have hL0 := bright_point_l_gt_90
  have hL1 := bright_point_l_lt_100
  have hl : bright_point.l < c4P := by rw [c4P]; linarith
  rw [Smax_pbh_at hl, c4P]
  have h100 : (100 : ℝ) - bright_point.l ≠ 0 := by linarith
  field_simp
  ring

theorem c4_p2 : (get_color_points pbh (1 / 2) (1 / 2) bright_point pbh pbs).p2 =
    ⟨c4P, lch_to_luv_u (pbs / 4 * c4P) pbh, lch_to_luv_v (pbs / 4 * c4P) pbh⟩ := by
  have hl : (1 - (1 : ℝ) / 2) * 100 + 1 / 2 * bright_point.l = c4P := by rw [c4P]; ring
  have hh : mix_hue (1 / 2) pbh pbh = pbh := mix_hue_self _ _ pbh_mem.1 pbh_mem.2
  simp only [get_color_points]
  rw [hh, hl, Smax_c4P]
  have hmin : min (pbs / 2) ((1 : ℝ) / 2 * (1 / 2) * pbs) = pbs / 4 := by
    rw [show (1 : ℝ) / 2 * (1 / 2) * pbs = pbs / 4 by ring]
    exact min_eq_right (by linarith [pbs_nonneg])
  rw [hmin]
  rfl

theorem c4_c0_eval :
    get_colormap_entry 1
      (get_color_points pbh (1 / 2) (1 / 2) bright_point pbh pbs).p0
      (get_color_points pbh (1 / 2) (1 / 2) bright_point pbh pbs).p2
      (get_color_points pbh (1 / 2) (1 / 2) bright_point pbh pbs).q0
      (get_color_points pbh (1 / 2) (1 / 2) bright_point pbh pbs).q1
      (get_color_points pbh (1 / 2) (1 / 2) bright_point pbh pbs).q2
      0 c4brightness =
    ⟨c4P, lch_to_luv_u (pbs / 4 * c4P) pbh, lch_to_luv_v (pbs / 4 * c4P) pbh⟩ := by
  have hL0 := bright_point_l_gt_90
  have hL1 := bright_point_l_lt_100
  have hPval : c4P = 50 + bright_point.l / 2 := rfl
  have htarget : target_l 0 c4brightness 1 = c4P := by
    rw [target_l, c4brightness]
    rw [show (1 - (0 : ℝ)) * Real.logb 0.2 ((125 - c4P) / 125) + 1 * 0 =
      Real.logb 0.2 ((125 - c4P) / 125) by ring]
    rw [Real.rpow_logb (by norm_num) (by norm_num)
      (div_pos (by linarith [c4P_bounds.2]) (by norm_num))]
    have : (125 : ℝ) * ((125 - c4P) / 125) = 125 - c4P := by field_simp
    linarith
  have hq1l : (get_color_points pbh (1 / 2) (1 / 2) bright_point pbh pbs).q1.l =
      (c4P + 2 * bright_point.l) / 4 := by
    rw [color_points_q1_l, color_points_q0_l, color_points_q2_l, most_saturated_at_pbh,
      hPval]
    ring
  have hq2l : (get_color_points pbh (1 / 2) (1 / 2) bright_point pbh pbs).q2.l =
      (c4P + bright_point.l) / 2 := by
    rw [color_points_q2_l, most_saturated_at_pbh, hPval]
    ring
  have hp2l : (get_color_points pbh (1 / 2) (1 / 2) bright_point pbh pbs).p2.l = c4P := by
    rw [color_points_p2_l, hPval]
    ring
  show entry_from_l (target_l 0 c4brightness 1)
      (get_color_points pbh (1 / 2) (1 / 2) bright_point pbh pbs).p0
      (get_color_points pbh (1 / 2) (1 / 2) bright_point pbh pbs).p2
      (get_color_points pbh (1 / 2) (1 / 2) bright_point pbh pbs).q0
      (get_color_points pbh (1 / 2) (1 / 2) bright_point pbh pbs).q1
      (get_color_points pbh (1 / 2) (1 / 2) bright_point pbh pbs).q2 = _
  rw [htarget]
  simp only [entry_from_l]
  have hnotle : ¬(c4P ≤ (get_color_points pbh (1 / 2) (1 / 2) bright_point pbh pbs).q1.l) := by
    rw [hq1l]
    push_neg
    rw [hPval]
    linarith
  rw [if_neg hnotle]
  have hD : (get_color_points pbh (1 / 2) (1 / 2) bright_point pbh pbs).q1.l -
      2 * (get_color_points pbh (1 / 2) (1 / 2) bright_point pbh pbs).q2.l +
      (get_color_points pbh (1 / 2) (1 / 2) bright_point pbh pbs).p2.l ≠ 0 := by
    rw [hq1l, hq2l, hp2l, hPval]
    intro hcon
    nlinarith
  have h12 : (get_color_points pbh (1 / 2) (1 / 2) bright_point pbh pbs).q2.l ≤
      (get_color_points pbh (1 / 2) (1 / 2) bright_point pbh pbs).p2.l := by
    rw [hq2l, hp2l, hPval]
    linarith
  have hinv : invB (get_color_points pbh (1 / 2) (1 / 2) bright_point pbh pbs).q1.l
      (get_color_points pbh (1 / 2) (1 / 2) bright_point pbh pbs).q2.l
      (get_color_points pbh (1 / 2) (1 / 2) bright_point pbh pbs).p2.l c4P = 1 := by
    rw [← hp2l]
    exact invB_at_top hD h12
  rw [hinv]
  rw [if_neg (by norm_num : ¬((0.5 : ℝ) * 1 + 0.5 ≤ 0.5))]
  rw [show (2 : ℝ) * (0.5 * 1 + 0.5 - 0.5) = 1 by norm_num]
  rw [B_at_one]
  exact c4_p2

theorem divergingHue1_pbh : divergingHue1 pbh 0 = pbh := by
  rw [divergingHue1, if_neg]
  · exact add_zero pbh
  · push_neg
    rw [add_zero]
    exact pbh_mem.2

theorem luv_saturation_ray (l C h : ℝ) (hC : 0 ≤ C) (hl : 1e-8 ≤ l) :
    luv_saturation l (lch_to_luv_u C h) (lch_to_luv_v C h) = C / l := by
  rw [luv_saturation, lch_saturation, lch_to_luv_u, lch_to_luv_v, hypot_ray,
    abs_of_nonneg hC, max_eq_left (by linarith)]

theorem c4_c0_eq : c4c0 = ⟨c4P, lch_to_luv_u (pbs / 4 * c4P) pbh,
    lch_to_luv_v (pbs / 4 * c4P) pbh⟩ := by
  rw [c4c0]
  simp only [brewerDivergingSample0]
  exact c4_c0_eval

theorem c4_c1_eq : c4c1 = ⟨c4P, lch_to_luv_u (pbs / 4 * c4P) pbh,
    lch_to_luv_v (pbs / 4 * c4P) pbh⟩ := by
  rw [c4c1]
  simp only [brewerDivergingSample1, divergingHue1_pbh]
  exact c4_c0_eval

theorem c4_middle : c4color =
    ⟨c4P, lch_to_luv_u (pbs / 8 * c4P) pbh, lch_to_luv_v (pbs / 8 * c4P) pbh⟩ := by
  have hP95 := c4P_bounds.1
  have hcond : 3 % 2 = 1 ∧ 1 = 3 / 2 := by norm_num
  rw [c4color]
  simp only [brewerDivergingColor, divergingHue1_pbh, if_pos hcond,
    if_pos (by norm_num : 3 ≤ 9)]
  rw [c4_c0_eval]
  have hsat : luv_saturation c4P (lch_to_luv_u (pbs / 4 * c4P) pbh)
      (lch_to_luv_v (pbs / 4 * c4P) pbh) = pbs / 4 := by
    rw [luv_saturation_ray _ _ _
      (mul_nonneg (by linarith [pbs_nonneg]) (by linarith)) (by linarith)]
    rw [mul_div_assoc, div_self (by linarith : c4P ≠ 0), mul_one]
  rw [hsat]
  rw [show (0.5 : ℝ) * (c4P + c4P) = c4P by ring]
  rw [show (0.5 : ℝ) * (pbs / 4 + pbs / 4) * (1 / 2) = pbs / 8 by ring]
  rw [Smax_c4P]
  rw [min_eq_right (by linarith [pbs_nonneg] : pbs / 8 ≤ pbs / 2)]
  rfl

/-- C4, counterexample: at n = 3 the middle entry of `BrewerDiverging` at hue
`pbh`, contrast 0, saturation 1/2, warmth 1/2 and a brightness chosen so the
target lightness hits the endpoint samples exactly, the middle entry's
saturation is NOT the average of the two half-maps' endpoint saturations
capped by `Smax`: the source multiplies that average by `warmth` first, so
the middle entry's saturation is half the claimed value. -/
theorem diverging_middle_saturation_counterexample :
    luv_saturation c4color.l c4color.u c4color.v ≠
      min (Smax c4color.l pbh)
        (0.5 * (luv_saturation c4c0.l c4c0.u c4c0.v +
                luv_saturation c4c1.l c4c1.u c4c1.v)) := by
  have hP95 := c4P_bounds.1
  have hpbs := pbs_pos
  have hc4 : c4P ≠ 0 := by linarith
  rw [c4_middle, c4_c0_eq, c4_c1_eq]
  show luv_saturation c4P (lch_to_luv_u (pbs / 8 * c4P) pbh)
      (lch_to_luv_v (pbs / 8 * c4P) pbh) ≠
    min (Smax c4P pbh)
      (0.5 * (luv_saturation c4P (lch_to_luv_u (pbs / 4 * c4P) pbh)
          (lch_to_luv_v (pbs / 4 * c4P) pbh) +
        luv_saturation c4P (lch_to_luv_u (pbs / 4 * c4P) pbh)
          (lch_to_luv_v (pbs / 4 * c4P) pbh)))
  rw [luv_saturation_ray _ _ _
    (mul_nonneg (by linarith) (by linarith)) (by linarith)]
  rw [luv_saturation_ray _ _ _
    (mul_nonneg (by linarith) (by linarith)) (by linarith)]
  rw [Smax_c4P]
  have h8 : pbs / 8 * c4P / c4P = pbs / 8 := by field_simp; ring
  have h4 : pbs / 4 * c4P / c4P = pbs / 4 := by field_simp; ring
  rw [h8, h4]
  rw [show (0.5 : ℝ) * (pbs / 4 + pbs / 4) = pbs / 4 by ring]
  rw [min_eq_right (by linarith : pbs / 4 ≤ pbs / 2)]
  intro hcon
  linarith

/-- C4 (amended): for odd n, the middle entry (index n/2) of `BrewerDiverging`
is a single neutral color at the bright point's hue `pbh`: for n ≤ 9 its
lightness is the average of the two half-maps' endpoint lightnesses and its
saturation is the average of the two half-maps' endpoint saturations TIMES
THE WARMTH PARAMETER, capped by the maximum in-gamut saturation `Smax` at
that lightness; for odd n > 9 the middle entry is the straight LUV average of
the two sides' endpoint colors. -/
theorem diverging_middle_entry (n i : ℕ)
    (hue divergence contrast saturation brightness warmth : ℝ)
    (hodd : n % 2 = 1) (hi : i = n / 2) :
    (n ≤ 9 →
      brewerDivergingColor n i hue divergence contrast saturation brightness warmth =
        ⟨0.5 * ((brewerDivergingSample0 hue divergence contrast saturation brightness warmth 1).l +
                (brewerDivergingSample1 hue divergence contrast saturation brightness warmth 1).l),
         lch_to_luv_u (lch_chroma
           (0.5 * ((brewerDivergingSample0 hue divergence contrast saturation brightness warmth 1).l +
                   (brewerDivergingSample1 hue divergence contrast saturation brightness warmth 1).l))
           (min (Smax (0.5 * ((brewerDivergingSample0 hue divergence contrast saturation brightness warmth 1).l +
                   (brewerDivergingSample1 hue divergence contrast saturation brightness warmth 1).l)) pbh)
             (0.5 * (luv_saturation
                 (brewerDivergingSample0 hue divergence contrast saturation brightness warmth 1).l
                 (brewerDivergingSample0 hue divergence contrast saturation brightness warmth 1).u
                 (brewerDivergingSample0 hue divergence contrast saturation brightness warmth 1).v +
               luv_saturation
                 (brewerDivergingSample1 hue divergence contrast saturation brightness warmth 1).l
                 (brewerDivergingSample1 hue divergence contrast saturation brightness warmth 1).u
                 (brewerDivergingSample1 hue divergence contrast saturation brightness warmth 1).v) *
               warmth))) pbh,
         lch_to_luv_v (lch_chroma
           (0.5 * ((brewerDivergingSample0 hue divergence contrast saturation brightness warmth 1).l +
                   (brewerDivergingSample1 hue divergence contrast saturation brightness warmth 1).l))
           (min (Smax (0.5 * ((brewerDivergingSample0 hue divergence contrast saturation brightness warmth 1).l +
                   (brewerDivergingSample1 hue divergence contrast saturation brightness warmth 1).l)) pbh)
             (0.5 * (luv_saturation
                 (brewerDivergingSample0 hue divergence contrast saturation brightness warmth 1).l
                 (brewerDivergingSample0 hue divergence contrast saturation brightness warmth 1).u
                 (brewerDivergingSample0 hue divergence contrast saturation brightness warmth 1).v +
               luv_saturation
                 (brewerDivergingSample1 hue divergence contrast saturation brightness warmth 1).l
                 (brewerDivergingSample1 hue divergence contrast saturation brightness warmth 1).u
                 (brewerDivergingSample1 hue divergence contrast saturation brightness warmth 1).v) *
               warmth))) pbh⟩) ∧
    (9 < n →
      brewerDivergingColor n i hue divergence contrast saturation brightness warmth =
        luvSmul 0.5 (luvAdd
          (brewerDivergingSample0 hue divergence contrast saturation brightness warmth 1)
          (brewerDivergingSample1 hue divergence contrast saturation brightness warmth 1))) := by
  have hcond : n % 2 = 1 ∧ i = n / 2 := ⟨hodd, hi⟩
  constructor
  · intro h9
    simp only [brewerDivergingColor, brewerDivergingSample0, brewerDivergingSample1]
    rw [if_pos hcond, if_pos h9]
  · intro h9
    simp only [brewerDivergingColor, brewerDivergingSample0, brewerDivergingSample1]
    rw [if_pos hcond, if_neg (by omega : ¬n ≤ 9)]

/-- Witness for the amended C4 theorem at n = 3, i = 1 with warmth 1. -/
theorem diverging_middle_entry_witness :
    3 % 2 = 1 ∧ 1 = 3 / 2 ∧ 3 ≤ 9 ∧
    brewerDivergingColor 3 1 0 0 0 0 0 1 =
      ⟨0.5 * ((brewerDivergingSample0 0 0 0 0 0 1 1).l +
              (brewerDivergingSample1 0 0 0 0 0 1 1).l),
       lch_to_luv_u (lch_chroma
         (0.5 * ((brewerDivergingSample0 0 0 0 0 0 1 1).l +
                 (brewerDivergingSample1 0 0 0 0 0 1 1).l))
         (min (Smax (0.5 * ((brewerDivergingSample0 0 0 0 0 0 1 1).l +
                 (brewerDivergingSample1 0 0 0 0 0 1 1).l)) pbh)
           (0.5 * (luv_saturation (brewerDivergingSample0 0 0 0 0 0 1 1).l
               (brewerDivergingSample0 0 0 0 0 0 1 1).u
               (brewerDivergingSample0 0 0 0 0 0 1 1).v +
             luv_saturation (brewerDivergingSample1 0 0 0 0 0 1 1).l
               (brewerDivergingSample1 0 0 0 0 0 1 1).u
               (brewerDivergingSample1 0 0 0 0 0 1 1).v) * 1))) pbh,
       lch_to_luv_v (lch_chroma
         (0.5 * ((brewerDivergingSample0 0 0 0 0 0 1 1).l +
                 (brewerDivergingSample1 0 0 0 0 0 1 1).l))
         (min (Smax (0.5 * ((brewerDivergingSample0 0 0 0 0 0 1 1).l +
                 (brewerDivergingSample1 0 0 0 0 0 1 1).l)) pbh)
           (0.5 * (luv_saturation (brewerDivergingSample0 0 0 0 0 0 1 1).l
               (brewerDivergingSample0 0 0 0 0 0 1 1).u
               (brewerDivergingSample0 0 0 0 0 0 1 1).v +
             luv_saturation (brewerDivergingSample1 0 0 0 0 0 1 1).l
               (brewerDivergingSample1 0 0 0 0 0 1 1).u
               (brewerDivergingSample1 0 0 0 0 0 1 1).v) * 1))) pbh⟩ :=
  ⟨by norm_num, by norm_num, by norm_num,
   (diverging_middle_entry 3 1 0 0 0 0 0 1 (by norm_num) (by norm_num)).1 (by norm_num)⟩

end

end ColorMap
